import Mathlib

/-!
# Spencer firmware: the LED matrix driver

A shallow embedding of `src/LEDmatrix/LEDmatrix.cpp`.  The driver object
becomes the record `LEDmatrix`, every method becomes a function on that record,
and the calls made on the global `Wire` object (and `delay`) are appended to a
log kept in the record, so that what the driver sends to the chip can be
stated.

Machine integers are `Nat` and `Int`; a narrowing store is written out as
`% 256` (to `uint8_t`) or `wrapInt16` (to `int16_t`).

The animation members of the class are kept in the record `Player`, around the
driver record; `startAnimation` and `loop` return `none` where the source reads
through a null pointer.  The classes of `Animation.h`, which is not among the
sources, are modelled from the specification.
-/

namespace Spencer

/-! ## Hardware events -/

/-- One call made by the driver on the bus object `Wire`, or a `delay`. -/
inductive HwEvent where
  | wireBegin (sda scl addr : Nat)
  | wireSetClock (hz : Nat)
  | beginTransmission (addr : Nat)
  | write (b : Nat)
  | endTransmission
  | requestFrom (addr n : Nat)
  | read
  | delay (ms : Nat)
  deriving DecidableEq, Repr

/-- The register constants of `LEDmatrix.h`.  The header is not part of the
sources at hand, so the driver is embedded for arbitrary values of them. -/
structure ISSI where
  ISSI_COMMANDREGISTER : Nat
  ISSI_BANK_FUNCTIONREG : Nat
  ISSI_REG_CONFIG : Nat
  ISSI_REG_CONFIG_PICTUREMODE : Nat
  ISSI_REG_PICTUREFRAME : Nat
  ISSI_REG_SHUTDOWN : Nat
  ISSI_REG_AUDIOSYNC : Nat
  deriving DecidableEq, Repr

/-- The values these constants have in the IS31FL3731 data sheet; used where a
statement is evaluated on a concrete instance. -/
def issi3731 : ISSI where
  ISSI_COMMANDREGISTER := 0xFD
  ISSI_BANK_FUNCTIONREG := 0x0B
  ISSI_REG_CONFIG := 0x00
  ISSI_REG_CONFIG_PICTUREMODE := 0x00
  ISSI_REG_PICTUREFRAME := 0x01
  ISSI_REG_SHUTDOWN := 0x0A
  ISSI_REG_AUDIOSYNC := 0x06

/-! ## Driver state -/

/-- The fields of the `LEDmatrix` object that the driver part of the class uses.
`matrixBuffer i` is the byte `matrixBuffer[i]`, the memory cell at offset `i`
from the pointer; how many of these cells the allocation owns is not part of
the record.  `wire` is the log of hardware events issued so far, oldest
first. -/
structure LEDmatrix where
  width : Nat
  height : Nat
  rotation : Nat
  brightness : Nat
  i2caddr : Nat
  frame : Nat
  matrixBuffer : Nat → Nat
  wire : List HwEvent

/-- A store of the `int` value `v` into an `int16_t` variable. -/
def wrapInt16 (v : Int) : Int := (v + 32768) % 65536 - 32768

/-- Method `LEDmatrix::setRotation`. -/
def setRotation (m : LEDmatrix) (rot : Nat) : LEDmatrix :=
  if rot > 3 then m else { m with rotation := rot }

/-- Method `LEDmatrix::getRotation`. -/
def getRotation (m : LEDmatrix) : Nat := m.rotation

/-- Method `LEDmatrix::setBrightness`. -/
def setBrightness (m : LEDmatrix) (b : Nat) : LEDmatrix :=
  { m with brightness := b }

/-- Method `LEDmatrix::getBrightness`. -/
def getBrightness (m : LEDmatrix) : Nat := m.brightness

/-- The constructor `LEDmatrix::LEDmatrix(_width, _height)`.  The record `raw`
holds what the constructor does not set: the indeterminate values the fields
have before its body runs (`rotation`, `_i2caddr`, `_frame`), the memory found at
the address that `new` hands out, and the log so far.
`new uint8_t(width*height)` initialises the first byte of that memory to the
(narrowed) product. -/
def LEDmatrix.new (w h : Nat) (raw : LEDmatrix) : LEDmatrix :=
  let m := { raw with width := w }
  let m := { m with height := h }
  let m := { m with brightness := 255 }
  let m := setRotation m 0
  { m with matrixBuffer := Function.update m.matrixBuffer 0 ((m.width * m.height) % 256) }

/-- Method `LEDmatrix::clear`: `memset(matrixBuffer, 0, width*height)`. -/
def clear (m : LEDmatrix) : LEDmatrix :=
  { m with matrixBuffer := fun i => if i < m.width * m.height then 0 else m.matrixBuffer i }

/-- The `switch (getRotation())` of `drawPixel`: the values of the local
variables `x` and `y` after it. -/
def rotateXY (m : LEDmatrix) (x y : Int) : Int × Int :=
  match getRotation m with
  | 1 => (wrapInt16 (m.width - y - 1), x)
  | 2 => (wrapInt16 (m.width - x - 1), wrapInt16 (m.height - y - 1))
  | 3 => (y, wrapInt16 (m.height - x - 1))
  | _ => (x, y)

/-- Method `LEDmatrix::drawPixel`. -/
def drawPixel (m : LEDmatrix) (x y : Int) (color : Nat) : LEDmatrix :=
  let p := rotateXY m x y
  if p.1 < 0 ∨ p.1 ≥ 16 then m
  else if p.2 < 0 ∨ p.2 ≥ 9 then m
  else
    let color := if color > 255 then 255 else color
    { m with matrixBuffer :=
        Function.update m.matrixBuffer (p.1 + p.2 * 16).toNat (color % 256) }

/-- Method `LEDmatrix::setFrame`. -/
def setFrame (m : LEDmatrix) (frame : Nat) : LEDmatrix :=
  { m with frame := frame }

/-! ## Bus traffic -/

/-- Appends one hardware event to the log. -/
def emit (m : LEDmatrix) (e : HwEvent) : LEDmatrix :=
  { m with wire := m.wire ++ [e] }

/-- Method `LEDmatrix::selectBank`. -/
def selectBank (c : ISSI) (m : LEDmatrix) (bank : Nat) : LEDmatrix :=
  let m := emit m (.beginTransmission m.i2caddr)
  let m := emit m (.write (c.ISSI_COMMANDREGISTER % 256))
  let m := emit m (.write bank)
  emit m .endTransmission

/-- Method `LEDmatrix::writeRegister8`. -/
def writeRegister8 (c : ISSI) (m : LEDmatrix) (bank reg data : Nat) : LEDmatrix :=
  let m := selectBank c m bank
  let m := emit m (.beginTransmission m.i2caddr)
  let m := emit m (.write reg)
  let m := emit m (.write data)
  emit m .endTransmission

/-- Method `LEDmatrix::readRegister8`; `rx` is what `Wire.read()` returns. -/
def readRegister8 (c : ISSI) (m : LEDmatrix) (bank reg : Nat) (rx : Int) : Nat × LEDmatrix :=
  let m := selectBank c m bank
  let m := emit m (.beginTransmission m.i2caddr)
  let m := emit m (.write reg)
  let m := emit m .endTransmission
  let m := emit m (.requestFrom m.i2caddr 1)
  let m := emit m .read
  ((rx % 256).toNat, m)

/-- Method `LEDmatrix::audioSync`. -/
def audioSync (c : ISSI) (m : LEDmatrix) (sync : Bool) : LEDmatrix :=
  if sync then writeRegister8 c m c.ISSI_BANK_FUNCTIONREG c.ISSI_REG_AUDIOSYNC 0x1
  else writeRegister8 c m c.ISSI_BANK_FUNCTIONREG c.ISSI_REG_AUDIOSYNC 0x0

/-- Method `LEDmatrix::displayFrame`. -/
def displayFrame (c : ISSI) (m : LEDmatrix) (frame : Nat) : LEDmatrix :=
  let frame := if frame > 7 then 0 else frame
  writeRegister8 c m c.ISSI_BANK_FUNCTIONREG c.ISSI_REG_PICTUREFRAME frame

/-- The expression `(uint8_t)(pwm*brightness/255)` of `setLEDPWM` and `push`. -/
def scaled (pwm brightness : Nat) : Nat := (pwm * brightness / 255) % 256

/-- Method `LEDmatrix::setLEDPWM`. -/
def setLEDPWM (c : ISSI) (m : LEDmatrix) (lednum pwm bank : Nat) : LEDmatrix :=
  if lednum ≥ 144 then m
  else writeRegister8 c m bank ((0x24 + lednum) % 256) (scaled pwm m.brightness)

/-- The body of the outer loop of `push` for block `i`. -/
def pushBlock (m : LEDmatrix) (i : Nat) : LEDmatrix :=
  let m := emit m (.beginTransmission m.i2caddr)
  let m := emit m (.write ((0x24 + i * 24) % 256))
  let m := (List.range 24).foldl
    (fun m j => emit m (.write (scaled (m.matrixBuffer (i * 24 + j)) m.brightness))) m
  emit m .endTransmission

/-- Method `LEDmatrix::push`. -/
def push (c : ISSI) (m : LEDmatrix) : LEDmatrix :=
  let m := selectBank c m m.frame
  (List.range 6).foldl pushBlock m

/-- The two nested loops of `begin` that switch the LEDs on. -/
def allLedsOn (c : ISSI) (m : LEDmatrix) : LEDmatrix :=
  (List.range 8).foldl
    (fun m f => (List.range (0x11 + 1)).foldl (fun m i => writeRegister8 c m f i 0xff) m) m

/-- Method `LEDmatrix::begin`; `probe` is what the `Wire.endTransmission()` of the
address scan returns (0 when the chip acknowledged). -/
def begin (c : ISSI) (m : LEDmatrix) (sda scl addr : Nat) (probe : Nat) : Bool × LEDmatrix :=
  let _ := sda
  let _ := scl
  let m := emit m (.wireBegin 22 21 addr)
  let m := emit m (.wireSetClock 400000)
  let m := { m with i2caddr := addr }
  let m := { m with frame := 0 }
  let m := emit m (.beginTransmission m.i2caddr)
  let m := emit m .endTransmission
  if probe ≠ 0 then (false, m)
  else
    let m := writeRegister8 c m c.ISSI_BANK_FUNCTIONREG c.ISSI_REG_SHUTDOWN 0x00
    let m := emit m (.delay 10)
    let m := writeRegister8 c m c.ISSI_BANK_FUNCTIONREG c.ISSI_REG_SHUTDOWN 0x01
    let m := writeRegister8 c m c.ISSI_BANK_FUNCTIONREG c.ISSI_REG_CONFIG
      c.ISSI_REG_CONFIG_PICTUREMODE
    let m := displayFrame c m m.frame
    let m := clear m
    let m := push c m
    let m := allLedsOn c m
    let m := audioSync c m false
    (true, m)

/-! ## Drawing -/

/-- Method `LEDmatrix::drawBitmap` for an 8-bit monochrome array; `data k` is the byte
`data[k]`. -/
def drawBitmap (m : LEDmatrix) (x y : Int) (width height : Nat) (data : Nat → Nat) :
    LEDmatrix :=
  (List.range height).foldl
    (fun m (i : Nat) => (List.range width).foldl
      (fun m (j : Nat) => drawPixel m (wrapInt16 (x + j)) (wrapInt16 (y + i)) (data (i * width + j) % 256))
      m) m

/-- A 24-bit colour value, as the second `drawBitmap` reads it. -/
structure RGBpixel where
  r : Nat
  g : Nat
  b : Nat

/-- Method `LEDmatrix::drawBitmap` for a 24-bit colour array: the red channel only. -/
def drawBitmapRGB (m : LEDmatrix) (x y : Int) (width height : Nat) (data : Nat → RGBpixel) :
    LEDmatrix :=
  (List.range height).foldl
    (fun m (i : Nat) => (List.range width).foldl
      (fun m (j : Nat) => drawPixel m (wrapInt16 (x + j)) (wrapInt16 (y + i)) ((data (i * width + j)).r % 256))
      m) m

/-- Method `LEDmatrix::drawChar`; `font k` is the byte `pgm_read_byte(font + k)` of the
glyph table of `Font.hpp`, which is not part of the sources at hand.  The
second component carried through the outer loop is `mask`. -/
def drawChar (font : Nat → Nat) (m : LEDmatrix) (x y : Int) (c : Nat) (brightness : Nat) :
    LEDmatrix :=
  let column : Nat → Nat := fun k => if k < 5 then font (c * 5 + k) % 256 else 0
  ((List.range 8).foldl
    (fun (st : LEDmatrix × Nat) (j : Nat) =>
      let m1 := (List.range 5).foldl
        (fun m (k : Nat) =>
          if column k &&& st.2 ≠ 0 then
            if x + k ≥ 0 ∧ y + j ≥ 0 ∧ x + k < m.width ∧ y + j < m.height then
              drawPixel m (wrapInt16 (x + k)) (wrapInt16 (y + j)) brightness
            else m
          else m) st.1
      (m1, (st.2 <<< 1) % 256))
    (m, 0x1)).1

/-- Method `LEDmatrix::drawString`; `s` holds the bytes of the string before its
terminating zero.  The second component carried through the loop is `x`. -/
def drawString (font : Nat → Nat) (m : LEDmatrix) (x y : Int) (s : List Nat)
    (brightness : Nat) : LEDmatrix :=
  (s.foldl
    (fun (st : LEDmatrix × Int) ch => (drawChar font st.1 st.2 y ch brightness, st.2 + 6))
    (m, x)).1

/-! ## Reachable states -/

/-- The driver states a program can get to: the constructor, followed by any
calls of the methods above with any arguments.  The animation methods of the
class change the fields of `LEDmatrix` only by calling `clear` and
`drawBitmap`, which are steps here. -/
inductive Reachable (c : ISSI) (font : Nat → Nat) : LEDmatrix → Prop
  | ctor (w h : Nat) (raw : LEDmatrix) : Reachable c font (LEDmatrix.new w h raw)
  | begin {m} (sda scl addr probe : Nat) :
      Reachable c font m → Reachable c font (begin c m sda scl addr probe).2
  | clear {m} : Reachable c font m → Reachable c font (clear m)
  | setLEDPWM {m} (lednum pwm bank : Nat) :
      Reachable c font m → Reachable c font (setLEDPWM c m lednum pwm bank)
  | drawPixel {m} (x y : Int) (color : Nat) :
      Reachable c font m → Reachable c font (drawPixel m x y color)
  | setFrame {m} (frame : Nat) : Reachable c font m → Reachable c font (setFrame m frame)
  | displayFrame {m} (frame : Nat) :
      Reachable c font m → Reachable c font (displayFrame c m frame)
  | selectBank {m} (bank : Nat) : Reachable c font m → Reachable c font (selectBank c m bank)
  | audioSync {m} (sync : Bool) : Reachable c font m → Reachable c font (audioSync c m sync)
  | writeRegister8 {m} (bank reg data : Nat) :
      Reachable c font m → Reachable c font (writeRegister8 c m bank reg data)
  | readRegister8 {m} (bank reg : Nat) (rx : Int) :
      Reachable c font m → Reachable c font (readRegister8 c m bank reg rx).2
  | drawChar {m} (x y : Int) (ch brightness : Nat) :
      Reachable c font m → Reachable c font (drawChar font m x y ch brightness)
  | drawString {m} (x y : Int) (s : List Nat) (brightness : Nat) :
      Reachable c font m → Reachable c font (drawString font m x y s brightness)
  | setBrightness {m} (b : Nat) : Reachable c font m → Reachable c font (setBrightness m b)
  | setRotation {m} (rot : Nat) : Reachable c font m → Reachable c font (setRotation m rot)
  | push {m} : Reachable c font m → Reachable c font (push c m)
  | drawBitmap {m} (x y : Int) (width height : Nat) (data : Nat → Nat) :
      Reachable c font m → Reachable c font (drawBitmap m x y width height data)
  | drawBitmapRGB {m} (x y : Int) (width height : Nat) (data : Nat → RGBpixel) :
      Reachable c font m → Reachable c font (drawBitmapRGB m x y width height data)

/-! ## Reading the log -/

/-- The events of one transmission to `addr` carrying `bytes`. -/
def txEvents (addr : Nat) (bytes : List Nat) : List HwEvent :=
  [HwEvent.beginTransmission addr] ++ bytes.map HwEvent.write ++ [HwEvent.endTransmission]

/-- Groups a log into its transmissions: for every `beginTransmission` that
is closed by an `endTransmission`, the address and the bytes written in
between.  The first argument is the transmission that is open. -/
def transmissionsFrom : Option (Nat × List Nat) → List HwEvent → List (Nat × List Nat)
  | _, [] => []
  | _, .beginTransmission a :: es => transmissionsFrom (some (a, [])) es
  | some (a, bs), .write b :: es => transmissionsFrom (some (a, bs ++ [b])) es
  | some t, .endTransmission :: es => t :: transmissionsFrom none es
  | cur, _ :: es => transmissionsFrom cur es

/-- The transmissions of a log that starts outside a transmission. -/
def transmissions (es : List HwEvent) : List (Nat × List Nat) := transmissionsFrom none es

/-- One register of the chip being written, as `writeRegister8` documents it:
the bank, the offset in the bank, the byte. -/
structure RegWrite where
  bank : Nat
  reg : Nat
  val : Nat
  deriving DecidableEq, Repr

/-- Reads a list of transmissions the way the driver means them: a
transmission whose first byte is the command register selects the bank given by
its second byte (`selectBank`); any other transmission names a register and
writes the bytes that follow to it and to the registers after it
(`writeRegister8`, and the 24-byte blocks of `push`).  `bank` is the bank
selected before. -/
def regWritesFrom (c : ISSI) : Nat → List (Nat × List Nat) → List RegWrite
  | _, [] => []
  | bank, (_, []) :: ts => regWritesFrom c bank ts
  | bank, (_, r :: ds) :: ts =>
    if r = c.ISSI_COMMANDREGISTER % 256 then regWritesFrom c (ds.headD bank) ts
    else (List.range ds.length).map (fun k => RegWrite.mk bank (r + k) (ds.getD k 0))
      ++ regWritesFrom c bank ts

/-- The events of one `writeRegister8 bank reg data` call: the bank selection,
then the register transmission. -/
def regWriteEvents (c : ISSI) (addr bank reg data : Nat) : List HwEvent :=
  txEvents addr [c.ISSI_COMMANDREGISTER % 256, bank] ++ txEvents addr [reg, data]

/-- The events `push` appends in state `m`: the selection of bank `_frame`,
then six transmissions, each the start register `0x24 + 24 * i` followed by the
24 scaled cells of block `i`. -/
def pushEvents (c : ISSI) (m : LEDmatrix) : List HwEvent :=
  txEvents m.i2caddr [c.ISSI_COMMANDREGISTER % 256, m.frame] ++
    (List.range 6).flatMap (fun i => txEvents m.i2caddr (((0x24 + i * 24) % 256) ::
      (List.range 24).map (fun j => scaled (m.matrixBuffer (i * 24 + j)) m.brightness)))

/-- The events of the address scan at the start of `begin`. -/
def probeEvents (addr : Nat) : List HwEvent :=
  [.wireBegin 22 21 addr, .wireSetClock 400000, .beginTransmission addr, .endTransmission]

/-- Appends a list of hardware events to the log. -/
def emits (m : LEDmatrix) (es : List HwEvent) : LEDmatrix :=
  { m with wire := m.wire ++ es }

/-! ## Coordinate sets -/

/-- The coordinate `p` lies on the panel: `0 ≤ x < width` and `0 ≤ y < height`. -/
def inPanel (m : LEDmatrix) (p : Int × Int) : Prop :=
  0 ≤ p.1 ∧ p.1 < m.width ∧ 0 ≤ p.2 ∧ p.2 < m.height

instance (m : LEDmatrix) (p : Int × Int) : Decidable (inPanel m p) := by
  unfold inPanel; infer_instance

/-- The coordinate `p` lies on the panel as the viewer sees it under the
rotation of `m`: at a quarter turn (rotation 1 or 3) the panel is `height` wide
and `width` high. -/
def inRotatedPanel (m : LEDmatrix) (p : Int × Int) : Prop :=
  if getRotation m = 1 ∨ getRotation m = 3 then
    0 ≤ p.1 ∧ p.1 < m.height ∧ 0 ≤ p.2 ∧ p.2 < m.width
  else 0 ≤ p.1 ∧ p.1 < m.width ∧ 0 ≤ p.2 ∧ p.2 < m.height

instance (m : LEDmatrix) (p : Int × Int) : Decidable (inRotatedPanel m p) := by
  unfold inRotatedPanel; infer_instance

/-- An object before construction: zeroed fields and memory, chip address 0x74,
nothing sent yet. -/
def rawObject : LEDmatrix :=
  { width := 0, height := 0, rotation := 0, brightness := 0, i2caddr := 0x74, frame := 0,
    matrixBuffer := fun _ => 0, wire := [] }

/-- A panel as the firmware constructs it: 16 columns, 9 rows. -/
def panel16x9 : LEDmatrix := LEDmatrix.new 16 9 rawObject

/-! ## The animation player -/

/-- Modelled from the spec: the frame type `AnimationFrame` of the header
`Animation.h`, which is not part of the sources at hand.  The specification
gives a frame raw pixel data, a monochrome intensity array matching the width
and height of the animation, and an intended on-screen duration in seconds,
fractional.  `data k` is the byte `data[k]`; the duration is a rational number,
so that no rounding enters the product `duration*1000`. -/
structure AnimationFrame where
  data : Nat → Nat
  duration : ℚ

/-- Modelled from the spec: the class `Animation` of the header `Animation.h`,
which is not part of the sources at hand.  The specification makes it an
ordered, finite, restartable sequence of frames with a width and a height fixed
for the whole sequence, read through a cursor: get the next frame or the
end-of-sequence marker, and rewind to the first frame.  `currentFrame` is the
cursor: the number of frames pulled since the last rewind. -/
structure Animation where
  frames : List AnimationFrame
  currentFrame : Nat
  width : Nat
  height : Nat

/-- Modelled from the spec: `Animation::getNextFrame`, the next frame of the
sequence and the cursor moved past it, or the end-of-sequence marker (the null
pointer, `none`) once every frame has been pulled. -/
def Animation.getNextFrame (a : Animation) : Option AnimationFrame × Animation :=
  match a.frames[a.currentFrame]? with
  | some f => (some f, { a with currentFrame := a.currentFrame + 1 })
  | none => (none, a)

/-- Modelled from the spec: `Animation::rewind`, back to the first frame. -/
def Animation.rewind (a : Animation) : Animation := { a with currentFrame := 0 }

/-- Modelled from the spec: `Animation::getWidth`. -/
def Animation.getWidth (a : Animation) : Nat := a.width

/-- Modelled from the spec: `Animation::getHeight`. -/
def Animation.getHeight (a : Animation) : Nat := a.height

/-- One line printed by `loop` on the serial console. -/
inductive SerialLine where
  | number (n : Nat)
  | rewind
  | draw
  deriving DecidableEq, Repr

/-- The `LEDmatrix` object with the animation members that `startAnimation`,
`stopAnimation` and `loop` use.  `animation` and `animationFrame` are pointers,
`none` being the null pointer; `animation` holds the state of the object pointed
to.  `currentFrameTime` is the accumulator of elapsed time: its declaration is in
the header `LEDmatrix.h`, which is not part of the sources at hand, and following
the specification it is a natural number that only accumulates.  `serial` is what
was printed so far, oldest first. -/
structure Player where
  matrix : LEDmatrix
  animation : Option Animation
  animationFrame : Option AnimationFrame
  animationLoop : Bool
  currentFrameTime : Nat
  serial : List SerialLine

/-- The call `Serial.println` with the given line. -/
def println (p : Player) (l : SerialLine) : Player :=
  { p with serial := p.serial ++ [l] }

/-- The statement `drawBitmap(0, 0, animation->getWidth(), animation->getHeight(),
animationFrame->data)` of `startAnimation` and `loop`.  It dereferences both
pointers: the result is `none` when one of them is null. -/
def drawAnimationFrame (p : Player) : Option Player :=
  match p.animation, p.animationFrame with
  | some a, some fr =>
    some { p with matrix := drawBitmap p.matrix 0 0 a.getWidth a.getHeight fr.data }
  | _, _ => none

/-- Method `LEDmatrix::startAnimation`, for a non-null `_animation`. -/
def startAnimation (p : Player) (anim : Animation) (loop : Bool) : Option Player :=
  let p := { p with animation := some anim }
  let p := { p with animationLoop := loop }
  let r := anim.getNextFrame
  let p := { p with animationFrame := r.1, animation := some r.2 }
  match drawAnimationFrame p with
  | none => none
  | some p => some { p with currentFrameTime := 0 }

/-- Method `LEDmatrix::stopAnimation`. -/
def stopAnimation (p : Player) : Player :=
  let p := { p with animation := none }
  let p := { p with animationFrame := none }
  { p with currentFrameTime := 0 }

/-- The end of `loop`: the two debug lines `draw` and `animation->currentFrame`,
then the blit of the current frame. -/
def drawAfterAdvance (p : Player) : Option Player :=
  let p := println p .draw
  match p.animation with
  | none => none
  | some a =>
    let p := println p (.number a.currentFrame)
    drawAnimationFrame p

/-- Method `LEDmatrix::loop`. -/
def loop (p : Player) (time : Nat) : Option Player :=
  match p.animationFrame, p.animation with
  | some fr, some a =>
    let p := { p with currentFrameTime := p.currentFrameTime + time }
    let p := println p (.number p.currentFrameTime)
    if (p.currentFrameTime : ℚ) ≥ fr.duration * 1000 then
      let p := { p with matrix := clear p.matrix }
      let p := { p with currentFrameTime := 0 }
      let r := a.getNextFrame
      let p := { p with animationFrame := r.1, animation := some r.2 }
      match r.1 with
      | none =>
        if p.animationLoop then
          let p := println p .rewind
          let r := r.2.rewind.getNextFrame
          let p := { p with animationFrame := r.1, animation := some r.2 }
          drawAfterAdvance p
        else some p
      | some _ => drawAfterAdvance p
    else some p
  | _, _ => some p

/-- Successive calls of `loop`, one per elapsed time of the list. -/
def loops (p : Player) : List Nat → Option Player
  | [] => some p
  | t :: ts => (loop p t).bind (fun q => loops q ts)

/-- The call `loop(time)` in state `p` is a duration crossing: a frame is
current and the accumulator, with `time` added, reaches its duration. -/
def crosses (p : Player) (time : Nat) : Bool :=
  match p.animationFrame, p.animation with
  | some fr, some _ => decide (((p.currentFrameTime + time : Nat) : ℚ) ≥ fr.duration * 1000)
  | _, _ => false

/-- The number of duration crossings among successive calls of `loop`. -/
def crossings (p : Player) : List Nat → Nat
  | [] => 0
  | t :: ts =>
    match loop p t with
    | none => 0
    | some q => (if crosses p t then 1 else 0) + crossings q ts

/-! ## The text rasterizer as the specification words it -/

/-- The reading of `drawChar` in the specification: one call
`drawPixel(x + col, y + row, intensity)` for every lit bit of the glyph, bit `row`
of column byte `col`, with `col < 5` and `row < rows`. -/
def drawCharByPixels (font : Nat → Nat) (rows : Nat) (m : LEDmatrix) (x y : Int) (c : Nat)
    (intensity : Nat) : LEDmatrix :=
  (List.range rows).foldl
    (fun m (row : Nat) => (List.range 5).foldl
      (fun m (col : Nat) =>
        if (font (c * 5 + col) % 256) &&& 2 ^ row ≠ 0 then drawPixel m (x + col) (y + row) intensity
        else m) m) m

/-- A frame whose pixels all have intensity `v`, shown for `d` seconds. -/
def plainFrame (v : Nat) (d : ℚ) : AnimationFrame := { data := fun _ => v, duration := d }

/-- A 16x9 animation of three frames of one second each, not yet read. -/
def threeFrames : Animation :=
  { frames := [plainFrame 10 1, plainFrame 20 1, plainFrame 30 1], currentFrame := 0,
    width := 16, height := 9 }

/-- A 16x9 animation of two frames of one second each, not yet read. -/
def twoFrames : Animation :=
  { frames := [plainFrame 10 1, plainFrame 20 1], currentFrame := 0, width := 16, height := 9 }

/-- The 16x9 panel showing the first of the three frames, looping. -/
def playingThree : Player :=
  { matrix := panel16x9, animation := some { threeFrames with currentFrame := 1 },
    animationFrame := some (plainFrame 10 1), animationLoop := true, currentFrameTime := 0,
    serial := [] }

/-- The driver state `m` with the first `n` cells of its buffer holding the
bytes of `data`. -/
def blitted (m : LEDmatrix) (data : Nat → Nat) (n : Nat) : LEDmatrix :=
  { m with matrixBuffer := fun k => if k < n then data k % 256 else m.matrixBuffer k }

/-- The player is looping over the frames `fs` of a 16x9 animation and shows
frame `k mod n` of them at rotation 0: that frame is current, the cursor stands
right after it, and the 144 cells of the buffer hold its bytes. -/
def ShowsFrame (fs : List AnimationFrame) (k : Nat) (q : Player) : Prop :=
  q.animation =
      some { frames := fs, currentFrame := k % fs.length + 1, width := 16, height := 9 } ∧
    q.animationLoop = true ∧
    q.matrix.rotation = 0 ∧
    ∃ f, fs[k % fs.length]? = some f ∧ q.animationFrame = some f ∧
      ∀ i, i < 144 → q.matrix.matrixBuffer i = f.data i % 256

/-- The animation members of the player: the current frame, the animation with
its cursor, the accumulator and the loop flag. -/
def PlayerAt (q : Player) (fr : AnimationFrame) (a : Animation) (c : Nat) (l : Bool) : Prop :=
  q.animationFrame = some fr ∧ q.animation = some a ∧ q.currentFrameTime = c ∧
    q.animationLoop = l

/-- A driver with no animation loaded. -/
def idlePlayer (m : LEDmatrix) : Player :=
  { matrix := m, animation := none, animationFrame := none, animationLoop := false,
    currentFrameTime := 0, serial := [] }

/-- The driver state `m` with the first `n` cells of its buffer holding, cell
`k` being column `k mod 16` of row `k / 16`, the bytes of a bitmap `w` wide. -/
def blittedWide (m : LEDmatrix) (data : Nat → Nat) (w n : Nat) : LEDmatrix :=
  { m with matrixBuffer := fun k =>
      if k < n then data ((k / 16) * w + k % 16) % 256 else m.matrixBuffer k }

/-- A frame whose byte `k` is `k + 1`, shown for one second. -/
def rampFrame : AnimationFrame := { data := fun k => k + 1, duration := 1 }

/-- A 20x9 animation of the single frame `rampFrame`, not yet read. -/
def rampAnimation : Animation :=
  { frames := [rampFrame], currentFrame := 0, width := 20, height := 9 }

/-- A panel constructed 20 columns wide and 9 rows high. -/
def panel20x9 : LEDmatrix := LEDmatrix.new 20 9 rawObject

/-! ## The rotation transform and `drawPixel` -/

theorem wrapInt16_of_range {v : Int} (h₁ : -32768 ≤ v) (h₂ : v ≤ 32767) : wrapInt16 v = v := by
  unfold wrapInt16; omega

theorem drawPixel_of_out {m : LEDmatrix} {x y : Int} (color : Nat)
    (h : ¬ (0 ≤ (rotateXY m x y).1 ∧ (rotateXY m x y).1 < 16 ∧
      0 ≤ (rotateXY m x y).2 ∧ (rotateXY m x y).2 < 9)) :
    drawPixel m x y color = m := by
  unfold drawPixel
  by_cases h1 : (rotateXY m x y).1 < 0 ∨ (rotateXY m x y).1 ≥ 16
  · simp only [h1, if_true]
  · by_cases h2 : (rotateXY m x y).2 < 0 ∨ (rotateXY m x y).2 ≥ 9
    · simp only [h1, h2, if_true, if_false]
    · exfalso; apply h; omega

theorem drawPixel_of_in {m : LEDmatrix} {x y : Int} (color : Nat) (px py : Nat)
    (hp : rotateXY m x y = ((px : Int), (py : Int))) (hx : px < 16) (hy : py < 9) :
    drawPixel m x y color =
      { m with matrixBuffer := Function.update m.matrixBuffer (px + py * 16) (min color 255) } := by
  have h1 : ¬ ((px : Int) < 0 ∨ (px : Int) ≥ 16) := by omega
  have h2 : ¬ ((py : Int) < 0 ∨ (py : Int) ≥ 9) := by omega
  have h3 : ((px : Int) + (py : Int) * 16).toNat = px + py * 16 := by omega
  have h4 : (if color > 255 then 255 else color) % 256 = min color 255 := by
    split <;> omega
  simp only [drawPixel, hp, h1, h2, h3, h4, if_false]

/-- C1: on a panel constructed with width 16 and height 9, whatever the rotation,
the coordinates and the intensity, when the coordinates that the rotation
transform yields are not inside the panel, `drawPixel` leaves every cell of the
frame buffer as it was. -/
theorem drawPixel_outside_panel_keeps_buffer (m : LEDmatrix) (x y : Int) (color : Nat)
    (hw : m.width = 16) (hh : m.height = 9)
    (hout : ¬ (0 ≤ (rotateXY m x y).1 ∧ (rotateXY m x y).1 < m.width ∧
      0 ≤ (rotateXY m x y).2 ∧ (rotateXY m x y).2 < m.height)) :
    ∀ i, (drawPixel m x y color).matrixBuffer i = m.matrixBuffer i := by
  intro i
  rw [hw, hh] at hout
  rw [drawPixel_of_out color (by simpa using hout)]

/-- Witness of C1: rotation 0 with `x = 16`, and with `x = -1`. -/
theorem drawPixel_outside_panel_keeps_buffer_witness :
    (∀ i, (drawPixel panel16x9 16 0 255).matrixBuffer i = panel16x9.matrixBuffer i) ∧
    (∀ i, (drawPixel panel16x9 (-1) 0 255).matrixBuffer i = panel16x9.matrixBuffer i) :=
  ⟨drawPixel_outside_panel_keeps_buffer panel16x9 16 0 255 rfl rfl (by decide),
   drawPixel_outside_panel_keeps_buffer panel16x9 (-1) 0 255 rfl rfl (by decide)⟩

/-- C2: on a 16x9 panel, when the rotation transform takes `(x, y)` to a
coordinate `(px, py)` inside the panel, `drawPixel` stores
`min intensity 255` in the cell of `(px, py)`, which is cell `px + py * width` of
the row-major buffer, and every other cell keeps its value. -/
theorem drawPixel_inside_panel_stores (m : LEDmatrix) (x y : Int) (color : Nat) (px py : Nat)
    (hw : m.width = 16) (hh : m.height = 9)
    (hp : rotateXY m x y = ((px : Int), (py : Int))) (hx : px < m.width) (hy : py < m.height) :
    (drawPixel m x y color).matrixBuffer (px + py * m.width) = min color 255 ∧
    ∀ i, i ≠ px + py * m.width → (drawPixel m x y color).matrixBuffer i = m.matrixBuffer i := by
  rw [hw] at hx ⊢
  rw [hh] at hy
  rw [drawPixel_of_in color px py hp hx hy]
  refine ⟨by simp, ?_⟩
  intro i hi
  simp [Function.update_noteq hi]

/-- Witness of C2: at rotation 2 the pixel `(0, 0)` is the last cell of the panel, and
an intensity above 255 is stored as 255. -/
theorem drawPixel_inside_panel_stores_witness :
    (drawPixel (setRotation panel16x9 2) 0 0 300).matrixBuffer
        (15 + 8 * (setRotation panel16x9 2).width) = min 300 255 ∧
    ∀ i, i ≠ 15 + 8 * (setRotation panel16x9 2).width →
      (drawPixel (setRotation panel16x9 2) 0 0 300).matrixBuffer i
        = (setRotation panel16x9 2).matrixBuffer i :=
  drawPixel_inside_panel_stores (setRotation panel16x9 2) 0 0 300 15 8 rfl rfl (by decide)
    (by decide) (by decide)

/-- C3, the code at the failing input: on a panel constructed 8 wide and 8 high,
`drawPixel(15, 8, 255)` at rotation 0 is not dropped although `15` is not below
the width and `8` is not below the height; it stores into cell 143, which is
not below `width * height = 64`. -/
theorem drawPixel_small_panel_writes_cell_143 :
    rotateXY (LEDmatrix.new 8 8 rawObject) 15 8 = (15, 8) ∧
    (LEDmatrix.new 8 8 rawObject).width = 8 ∧
    (LEDmatrix.new 8 8 rawObject).height = 8 ∧
    (LEDmatrix.new 8 8 rawObject).matrixBuffer 143 = 0 ∧
    (drawPixel (LEDmatrix.new 8 8 rawObject) 15 8 255).matrixBuffer 143 = 255 := by
  refine ⟨by decide, rfl, rfl, by decide, ?_⟩
  rw [drawPixel_of_in 255 15 8 (by decide) (by decide) (by decide)]
  decide

theorem rotateXY_eq (m : LEDmatrix) (x y : Int) :
    rotateXY m x y =
      if m.rotation = 1 then (wrapInt16 (m.width - y - 1), x)
      else if m.rotation = 2 then (wrapInt16 (m.width - x - 1), wrapInt16 (m.height - y - 1))
      else if m.rotation = 3 then (y, wrapInt16 (m.height - x - 1))
      else (x, y) := by
  unfold rotateXY getRotation
  split <;> simp_all

/-- C4, counterexample: on the 16x9 panel at rotation 1 the coordinate `(10, 0)`
is in bounds and is taken to `(15, 10)`, which is not on the panel; so the
transform, restricted to the in-bounds coordinates, is not a bijection onto the
panel's coordinate set. -/
theorem rotateXY_quarter_turn_leaves_panel :
    inPanel (setRotation panel16x9 1) (10, 0) ∧
    rotateXY (setRotation panel16x9 1) 10 0 = (15, 10) ∧
    ¬ inPanel (setRotation panel16x9 1) (15, 10) ∧
    ¬ Set.BijOn (fun p : Int × Int => rotateXY (setRotation panel16x9 1) p.1 p.2)
        {p | inPanel (setRotation panel16x9 1) p} {p | inPanel (setRotation panel16x9 1) p} := by
  have e : rotateXY (setRotation panel16x9 1) 10 0 = (15, 10) := by decide
  have hin : inPanel (setRotation panel16x9 1) (10, 0) := by decide
  have hout : ¬ inPanel (setRotation panel16x9 1) (15, 10) := by decide
  refine ⟨hin, e, hout, ?_⟩
  intro h
  have h1 := h.1 hin
  simp only [Set.mem_setOf_eq, e] at h1
  exact hout h1

/-- C4, amended: for every rotation the transform of `drawPixel`, restricted to
the coordinates of the panel as it is seen under that rotation (`0 ≤ x < width`,
`0 ≤ y < height` at rotations 0 and 2; `0 ≤ x < height`, `0 ≤ y < width` at
rotations 1 and 3), is a bijection onto the panel's coordinate set
`0 ≤ x' < width`, `0 ≤ y' < height`. -/
theorem rotateXY_bijOn_rotated_panel (m : LEDmatrix) (hw : m.width ≤ 255) (hh : m.height ≤ 255) :
    Set.BijOn (fun p : Int × Int => rotateXY m p.1 p.2)
      {p | inRotatedPanel m p} {p | inPanel m p} := by
  by_cases h1 : m.rotation = 1
  · have hf : ∀ x y, rotateXY m x y = (wrapInt16 (m.width - y - 1), x) := by
      intro x y; simp [rotateXY_eq, h1]
    have hd : ∀ p, inRotatedPanel m p ↔ 0 ≤ p.1 ∧ p.1 < m.height ∧ 0 ≤ p.2 ∧ p.2 < m.width := by
      intro p; simp [inRotatedPanel, getRotation, h1]
    refine ⟨?_, ?_, ?_⟩
    · rintro ⟨x, y⟩ hp
      have hp' := (hd _).1 hp
      simp only [Set.mem_setOf_eq, inPanel, hf, wrapInt16] at hp' ⊢
      omega
    · rintro ⟨x, y⟩ hp ⟨x', y'⟩ hq heq
      have hp' := (hd _).1 hp
      have hq' := (hd _).1 hq
      simp only [hf, wrapInt16, Prod.mk.injEq] at hp' hq' heq ⊢
      omega
    · rintro ⟨x, y⟩ hq
      simp only [Set.mem_setOf_eq, inPanel] at hq
      refine ⟨(y, m.width - 1 - x), (hd _).2 ?_, ?_⟩
      · simp only; omega
      · simp only [hf, wrapInt16, Prod.mk.injEq, true_and, and_true]; omega
  by_cases h2 : m.rotation = 2
  · have hf : ∀ x y, rotateXY m x y =
        (wrapInt16 (m.width - x - 1), wrapInt16 (m.height - y - 1)) := by
      intro x y; simp [rotateXY_eq, h2]
    have hd : ∀ p, inRotatedPanel m p ↔ 0 ≤ p.1 ∧ p.1 < m.width ∧ 0 ≤ p.2 ∧ p.2 < m.height := by
      intro p; simp [inRotatedPanel, getRotation, h2]
    refine ⟨?_, ?_, ?_⟩
    · rintro ⟨x, y⟩ hp
      have hp' := (hd _).1 hp
      simp only [Set.mem_setOf_eq, inPanel, hf, wrapInt16] at hp' ⊢
      omega
    · rintro ⟨x, y⟩ hp ⟨x', y'⟩ hq heq
      have hp' := (hd _).1 hp
      have hq' := (hd _).1 hq
      simp only [hf, wrapInt16, Prod.mk.injEq] at hp' hq' heq ⊢
      omega
    · rintro ⟨x, y⟩ hq
      simp only [Set.mem_setOf_eq, inPanel] at hq
      refine ⟨(m.width - 1 - x, m.height - 1 - y), (hd _).2 ?_, ?_⟩
      · simp only; omega
      · simp only [hf, wrapInt16, Prod.mk.injEq, true_and, and_true]; omega
  by_cases h3 : m.rotation = 3
  · have hf : ∀ x y, rotateXY m x y = (y, wrapInt16 (m.height - x - 1)) := by
      intro x y; simp [rotateXY_eq, h3]
    have hd : ∀ p, inRotatedPanel m p ↔ 0 ≤ p.1 ∧ p.1 < m.height ∧ 0 ≤ p.2 ∧ p.2 < m.width := by
      intro p; simp [inRotatedPanel, getRotation, h3]
    refine ⟨?_, ?_, ?_⟩
    · rintro ⟨x, y⟩ hp
      have hp' := (hd _).1 hp
      simp only [Set.mem_setOf_eq, inPanel, hf, wrapInt16] at hp' ⊢
      omega
    · rintro ⟨x, y⟩ hp ⟨x', y'⟩ hq heq
      have hp' := (hd _).1 hp
      have hq' := (hd _).1 hq
      simp only [hf, wrapInt16, Prod.mk.injEq] at hp' hq' heq ⊢
      omega
    · rintro ⟨x, y⟩ hq
      simp only [Set.mem_setOf_eq, inPanel] at hq
      refine ⟨(m.height - 1 - y, x), (hd _).2 ?_, ?_⟩
      · simp only; omega
      · simp only [hf, wrapInt16, Prod.mk.injEq, true_and, and_true]; omega
  · have hf : ∀ x y, rotateXY m x y = (x, y) := by
      intro x y; simp [rotateXY_eq, h1, h2, h3]
    have hd : ∀ p, inRotatedPanel m p ↔ 0 ≤ p.1 ∧ p.1 < m.width ∧ 0 ≤ p.2 ∧ p.2 < m.height := by
      intro p; simp [inRotatedPanel, getRotation, h1, h3]
    refine ⟨?_, ?_, ?_⟩
    · rintro ⟨x, y⟩ hp
      have hp' := (hd _).1 hp
      simpa only [Set.mem_setOf_eq, inPanel, hf] using hp'
    · rintro ⟨x, y⟩ hp ⟨x', y'⟩ hq heq
      simpa only [hf] using heq
    · rintro ⟨x, y⟩ hq
      exact ⟨(x, y), (hd _).2 hq, by simp only [hf]⟩

/-- Witness of C4 (amended): the 16x9 panel at rotation 1. -/
theorem rotateXY_bijOn_rotated_panel_witness :
    Set.BijOn (fun p : Int × Int => rotateXY (setRotation panel16x9 1) p.1 p.2)
      {p | inRotatedPanel (setRotation panel16x9 1) p} {p | inPanel (setRotation panel16x9 1) p} :=
  rotateXY_bijOn_rotated_panel (setRotation panel16x9 1) (by decide) (by decide)

/-! ## The log of an operation -/

@[simp] theorem emits_nil (m : LEDmatrix) : emits m [] = m := by
  simp [emits]

@[simp] theorem emits_emits (m : LEDmatrix) (a b : List HwEvent) :
    emits (emits m a) b = emits m (a ++ b) := by
  simp [emits]

theorem emit_eq_emits (m : LEDmatrix) (e : HwEvent) : emit m e = emits m [e] := rfl

@[simp] theorem emits_width (m : LEDmatrix) (es : List HwEvent) : (emits m es).width = m.width := rfl
@[simp] theorem emits_height (m : LEDmatrix) (es : List HwEvent) :
    (emits m es).height = m.height := rfl
@[simp] theorem emits_rotation (m : LEDmatrix) (es : List HwEvent) :
    (emits m es).rotation = m.rotation := rfl
@[simp] theorem emits_brightness (m : LEDmatrix) (es : List HwEvent) :
    (emits m es).brightness = m.brightness := rfl
@[simp] theorem emits_i2caddr (m : LEDmatrix) (es : List HwEvent) :
    (emits m es).i2caddr = m.i2caddr := rfl
@[simp] theorem emits_frame (m : LEDmatrix) (es : List HwEvent) : (emits m es).frame = m.frame := rfl
@[simp] theorem emits_matrixBuffer (m : LEDmatrix) (es : List HwEvent) :
    (emits m es).matrixBuffer = m.matrixBuffer := rfl
@[simp] theorem emits_wire (m : LEDmatrix) (es : List HwEvent) :
    (emits m es).wire = m.wire ++ es := rfl

/-- A loop whose body only appends events that do not depend on the log appends
the events of all its rounds. -/
theorem foldl_emits {β : Type} (F : LEDmatrix → β → LEDmatrix) (G : LEDmatrix → β → List HwEvent)
    (hF : ∀ m b, F m b = emits m (G m b)) (hG : ∀ m es b, G (emits m es) b = G m b)
    (l : List β) (m : LEDmatrix) : l.foldl F m = emits m (l.flatMap (G m)) := by
  induction l generalizing m with
  | nil => simp
  | cons b l ih =>
    rw [List.foldl_cons, ih, hF]
    have : G (emits m (G m b)) = G m := by
      funext b'; exact hG m _ b'
    simp [this]

theorem flatMap_single {α β : Type} (f : α → β) (l : List α) :
    l.flatMap (fun a => [f a]) = l.map f := by
  induction l with
  | nil => rfl
  | cons a l ih => simp [List.flatMap_cons, ih]

theorem selectBank_eq (c : ISSI) (m : LEDmatrix) (bank : Nat) :
    selectBank c m bank = emits m (txEvents m.i2caddr [c.ISSI_COMMANDREGISTER % 256, bank]) := by
  simp [selectBank, emit_eq_emits, txEvents]

theorem writeRegister8_eq (c : ISSI) (m : LEDmatrix) (bank reg data : Nat) :
    writeRegister8 c m bank reg data = emits m (regWriteEvents c m.i2caddr bank reg data) := by
  simp [writeRegister8, selectBank_eq, emit_eq_emits, regWriteEvents, txEvents]

theorem readRegister8_eq (c : ISSI) (m : LEDmatrix) (bank reg : Nat) (rx : Int) :
    (readRegister8 c m bank reg rx).2 =
      emits m (txEvents m.i2caddr [c.ISSI_COMMANDREGISTER % 256, bank] ++
        txEvents m.i2caddr [reg] ++ [.requestFrom m.i2caddr 1, .read]) := by
  simp [readRegister8, selectBank_eq, emit_eq_emits, txEvents]

theorem audioSync_eq (c : ISSI) (m : LEDmatrix) (sync : Bool) :
    audioSync c m sync = emits m (regWriteEvents c m.i2caddr c.ISSI_BANK_FUNCTIONREG
      c.ISSI_REG_AUDIOSYNC (if sync then 1 else 0)) := by
  cases sync <;> simp [audioSync, writeRegister8_eq]

theorem displayFrame_eq (c : ISSI) (m : LEDmatrix) (frame : Nat) :
    displayFrame c m frame = emits m (regWriteEvents c m.i2caddr c.ISSI_BANK_FUNCTIONREG
      c.ISSI_REG_PICTUREFRAME (if frame > 7 then 0 else frame)) := by
  simp [displayFrame, writeRegister8_eq]

theorem setLEDPWM_eq (c : ISSI) (m : LEDmatrix) (lednum pwm bank : Nat) :
    setLEDPWM c m lednum pwm bank = emits m (if lednum ≥ 144 then [] else
      regWriteEvents c m.i2caddr bank ((0x24 + lednum) % 256) (scaled pwm m.brightness)) := by
  unfold setLEDPWM
  split <;> simp [writeRegister8_eq]

/-- The bytes of block `i` of `push`: the start register, then 24 scaled cells. -/
theorem pushBlock_eq (m : LEDmatrix) (i : Nat) :
    pushBlock m i = emits m (txEvents m.i2caddr (((0x24 + i * 24) % 256) ::
      (List.range 24).map (fun j => scaled (m.matrixBuffer (i * 24 + j)) m.brightness))) := by
  unfold pushBlock
  simp only [emit_eq_emits]
  rw [foldl_emits _ (fun m j => [HwEvent.write (scaled (m.matrixBuffer (i * 24 + j)) m.brightness)])
    (fun _ _ => rfl) (fun _ _ _ => rfl), flatMap_single]
  simp [txEvents, Function.comp_def]

theorem push_eq (c : ISSI) (m : LEDmatrix) : push c m = emits m (pushEvents c m) := by
  unfold push pushEvents
  simp only [selectBank_eq]
  rw [foldl_emits pushBlock _ pushBlock_eq (fun _ _ _ => rfl)]
  simp

theorem allLedsOn_eq (c : ISSI) (m : LEDmatrix) :
    allLedsOn c m = emits m ((List.range 8).flatMap (fun f =>
      (List.range 18).flatMap (fun i => regWriteEvents c m.i2caddr f i 0xff))) := by
  unfold allLedsOn
  rw [foldl_emits _ (fun m f => (List.range 18).flatMap
    (fun i => regWriteEvents c m.i2caddr f i 0xff)) _ (fun _ _ _ => rfl)]
  intro m f
  rw [foldl_emits _ (fun m i => regWriteEvents c m.i2caddr f i 0xff)
    (fun m i => writeRegister8_eq c m f i 0xff) (fun _ _ _ => rfl)]

theorem clear_emits (m : LEDmatrix) (es : List HwEvent) : clear (emits m es) = emits (clear m) es :=
  rfl

theorem begin_of_nack (c : ISSI) (m : LEDmatrix) (sda scl addr probe : Nat) (h : probe ≠ 0) :
    begin c m sda scl addr probe =
      (false, emits { m with i2caddr := addr, frame := 0 } (probeEvents addr)) := by
  simp [begin, h, emit_eq_emits, emits, probeEvents]

theorem begin_of_ack (c : ISSI) (m : LEDmatrix) (sda scl addr : Nat) :
    begin c m sda scl addr 0 =
      (true, emits (clear { m with i2caddr := addr, frame := 0 })
        (probeEvents addr ++
          regWriteEvents c addr c.ISSI_BANK_FUNCTIONREG c.ISSI_REG_SHUTDOWN 0x00 ++
          [.delay 10] ++
          regWriteEvents c addr c.ISSI_BANK_FUNCTIONREG c.ISSI_REG_SHUTDOWN 0x01 ++
          regWriteEvents c addr c.ISSI_BANK_FUNCTIONREG c.ISSI_REG_CONFIG
            c.ISSI_REG_CONFIG_PICTUREMODE ++
          regWriteEvents c addr c.ISSI_BANK_FUNCTIONREG c.ISSI_REG_PICTUREFRAME 0 ++
          pushEvents c (clear { m with i2caddr := addr, frame := 0 }) ++
          (List.range 8).flatMap (fun f =>
            (List.range 18).flatMap (fun i => regWriteEvents c addr f i 0xff)) ++
          regWriteEvents c addr c.ISSI_BANK_FUNCTIONREG c.ISSI_REG_AUDIOSYNC 0)) := by
  simp only [begin, ne_eq, not_true_eq_false, if_false]
  simp only [emit_eq_emits, writeRegister8_eq, displayFrame_eq, push_eq, allLedsOn_eq,
    audioSync_eq, clear_emits, emits_emits, emits_i2caddr, emits_frame]
  simp [emits, probeEvents, pushEvents, clear]

/-! ## The rotation is kept by everything but `setRotation` -/

theorem foldl_invariant {α β : Type} (P : α → Prop) (f : α → β → α)
    (hf : ∀ a b, P a → P (f a b)) (l : List β) (a : α) (ha : P a) : P (l.foldl f a) := by
  induction l generalizing a with
  | nil => exact ha
  | cons b l ih => exact ih _ (hf a b ha)

theorem drawPixel_rotation (m : LEDmatrix) (x y : Int) (color : Nat) :
    (drawPixel m x y color).rotation = m.rotation := by
  unfold drawPixel
  dsimp only
  split
  · rfl
  · split <;> rfl

theorem drawBitmap_rotation (m : LEDmatrix) (x y : Int) (w h : Nat) (data : Nat → Nat) :
    (drawBitmap m x y w h data).rotation = m.rotation := by
  unfold drawBitmap
  refine foldl_invariant (fun s => s.rotation = m.rotation) _ ?_ _ m rfl
  intro a i ha
  refine foldl_invariant (fun s => s.rotation = m.rotation) _ ?_ _ a ha
  intro a' j ha'
  simpa [drawPixel_rotation] using ha'

theorem drawBitmapRGB_rotation (m : LEDmatrix) (x y : Int) (w h : Nat) (data : Nat → RGBpixel) :
    (drawBitmapRGB m x y w h data).rotation = m.rotation := by
  unfold drawBitmapRGB
  refine foldl_invariant (fun s => s.rotation = m.rotation) _ ?_ _ m rfl
  intro a i ha
  refine foldl_invariant (fun s => s.rotation = m.rotation) _ ?_ _ a ha
  intro a' j ha'
  simpa [drawPixel_rotation] using ha'

theorem drawChar_rotation (font : Nat → Nat) (m : LEDmatrix) (x y : Int) (ch b : Nat) :
    (drawChar font m x y ch b).rotation = m.rotation := by
  unfold drawChar
  refine foldl_invariant (fun s : LEDmatrix × Nat => s.1.rotation = m.rotation) _ ?_ _ (m, 1) rfl
  intro st j hst
  refine foldl_invariant (fun s => s.rotation = m.rotation) _ ?_ _ st.1 hst
  intro a k ha
  dsimp only
  split_ifs <;> first | exact ha | (rw [drawPixel_rotation]; exact ha)

theorem drawString_rotation (font : Nat → Nat) (m : LEDmatrix) (x y : Int) (s : List Nat)
    (b : Nat) : (drawString font m x y s b).rotation = m.rotation := by
  unfold drawString
  refine foldl_invariant (fun s : LEDmatrix × Int => s.1.rotation = m.rotation) _ ?_ _ (m, x) rfl
  intro st ch hst
  simpa [drawChar_rotation] using hst

theorem setRotation_rotation_le (m : LEDmatrix) (rot : Nat) (h : m.rotation ≤ 3) :
    (setRotation m rot).rotation ≤ 3 := by
  unfold setRotation
  split
  · exact h
  · simp only; omega

theorem reachable_rotation_le {c : ISSI} {font : Nat → Nat} {m : LEDmatrix}
    (h : Reachable c font m) : m.rotation ≤ 3 := by
  induction h with
  | ctor w h raw => simp [LEDmatrix.new, setRotation]
  | begin sda scl addr probe _ ih =>
    by_cases hp : probe = 0
    · subst hp; rw [begin_of_ack]; simpa [clear] using ih
    · rw [begin_of_nack _ _ _ _ _ _ hp]; simpa using ih
  | clear _ ih => simpa [clear] using ih
  | setLEDPWM l p b _ ih => rw [setLEDPWM_eq]; simpa using ih
  | drawPixel x y col _ ih => rw [drawPixel_rotation]; exact ih
  | setFrame f _ ih => simpa [setFrame] using ih
  | displayFrame f _ ih => rw [displayFrame_eq]; simpa using ih
  | selectBank b _ ih => rw [selectBank_eq]; simpa using ih
  | audioSync s _ ih => rw [audioSync_eq]; simpa using ih
  | writeRegister8 b r d _ ih => rw [writeRegister8_eq]; simpa using ih
  | readRegister8 b r rx _ ih => rw [readRegister8_eq]; simpa using ih
  | drawChar x y ch b _ ih => rw [drawChar_rotation]; exact ih
  | drawString x y s b _ ih => rw [drawString_rotation]; exact ih
  | setBrightness b _ ih => simpa [setBrightness] using ih
  | setRotation rot _ ih => exact setRotation_rotation_le _ _ ih
  | push _ ih => rw [push_eq]; simpa using ih
  | drawBitmap x y w h data _ ih => rw [drawBitmap_rotation]; exact ih
  | drawBitmapRGB x y w h data _ ih => rw [drawBitmapRGB_rotation]; exact ih

/-- C5: `setRotation(rot)` sets the rotation to `rot` when `rot ≤ 3` and is a
no-op when `rot > 3` (the previous rotation stays); and in every state reachable
from the constructor by any calls of the driver's methods `getRotation()`
returns one of 0, 1, 2, 3. -/
theorem setRotation_guarded (c : ISSI) (font : Nat → Nat) (m : LEDmatrix) (rot : Nat) :
    (rot ≤ 3 → getRotation (setRotation m rot) = rot) ∧
    (3 < rot → setRotation m rot = m ∧ getRotation (setRotation m rot) = getRotation m) ∧
    (Reachable c font m → getRotation m ≤ 3) := by
  refine ⟨?_, ?_, fun h => reachable_rotation_le h⟩
  · intro h
    have : ¬ rot > 3 := by omega
    simp [setRotation, getRotation, this]
  · intro h
    have : rot > 3 := h
    simp [setRotation, this]

/-- Witness of C5: rotation 2 is accepted, rotation 9 is rejected, and the state
after both calls is reachable. -/
theorem setRotation_guarded_witness :
    getRotation (setRotation panel16x9 2) = 2 ∧
    (setRotation (setRotation panel16x9 2) 9 = setRotation panel16x9 2 ∧
      getRotation (setRotation (setRotation panel16x9 2) 9)
        = getRotation (setRotation panel16x9 2)) ∧
    getRotation (setRotation (setRotation panel16x9 2) 9) ≤ 3 :=
  ⟨(setRotation_guarded issi3731 (fun _ => 0) panel16x9 2).1 (by decide),
   (setRotation_guarded issi3731 (fun _ => 0) (setRotation panel16x9 2) 9).2.1 (by decide),
   (setRotation_guarded issi3731 (fun _ => 0) (setRotation (setRotation panel16x9 2) 9) 0).2.2
     (Reachable.setRotation 9 (Reachable.setRotation 2
       (Reachable.ctor 16 9 rawObject)))⟩

/-! ## What `push`, `displayFrame` and `begin` send -/

theorem scaled_eq {s b : Nat} (hs : s ≤ 255) (hb : b ≤ 255) : scaled s b = s * b / 255 := by
  unfold scaled
  have h : s * b ≤ 255 * 255 := Nat.mul_le_mul hs hb
  have h2 : s * b / 255 ≤ 255 := by omega
  omega

/-- C6: for stored intensities and a global brightness in 0..255, `push` sends,
after the bank selection, six transmissions of a start register and 24 data
bytes, and the data byte sent for cell `24 * i + j` is the truncating quotient
`s * b / 255` of its stored intensity `s` and the brightness `b`; so a stored 100
is sent as 50 at brightness 128 and as 78 at brightness 200. -/
theorem push_sends_truncated_quotient (c : ISSI) (m : LEDmatrix)
    (hb : m.brightness ≤ 255) (hs : ∀ k, k < 144 → m.matrixBuffer k ≤ 255) :
    (push c m).wire = m.wire ++ (txEvents m.i2caddr [c.ISSI_COMMANDREGISTER % 256, m.frame] ++
      (List.range 6).flatMap (fun i => txEvents m.i2caddr ((0x24 + 24 * i) ::
        (List.range 24).map (fun j => m.matrixBuffer (24 * i + j) * m.brightness / 255)))) ∧
    (∀ s b, s ≤ 255 → b ≤ 255 → scaled s b = s * b / 255) ∧
    scaled 100 128 = 50 ∧ scaled 100 200 = 78 := by
  refine ⟨?_, fun s b hs hb => scaled_eq hs hb, by decide, by decide⟩
  rw [push_eq, emits_wire, pushEvents]
  congr 2
  apply List.flatMap_congr
  intro i hi
  have hi6 : i < 6 := List.mem_range.1 hi
  have e1 : (0x24 + i * 24) % 256 = 0x24 + 24 * i := by omega
  rw [e1]
  congr 2
  apply List.map_congr_left
  intro j hj
  have hj24 : j < 24 := List.mem_range.1 hj
  have e2 : i * 24 + j = 24 * i + j := by omega
  rw [e2, scaled_eq (hs _ (by omega)) hb]

/-- A state whose first cell holds 100, at brightness 128. -/
theorem push_sends_truncated_quotient_witness :
    (push issi3731 (setBrightness (drawPixel panel16x9 0 0 100) 128)).wire =
      (setBrightness (drawPixel panel16x9 0 0 100) 128).wire ++
      (txEvents 0x74 [0xFD % 256, 0] ++
        (List.range 6).flatMap (fun i => txEvents 0x74 ((0x24 + 24 * i) ::
          (List.range 24).map (fun j =>
            (setBrightness (drawPixel panel16x9 0 0 100) 128).matrixBuffer (24 * i + j)
              * 128 / 255)))) ∧
    (∀ s b, s ≤ 255 → b ≤ 255 → scaled s b = s * b / 255) ∧
    scaled 100 128 = 50 ∧ scaled 100 200 = 78 :=
  push_sends_truncated_quotient issi3731 (setBrightness (drawPixel panel16x9 0 0 100) 128)
    (by decide) (by decide)

/-- C7: on a 16x9 panel, in any state and at any brightness, `clear()` followed
by `push()` sends the bank selection and then exactly six block transmissions;
block `i` carries the start register byte `0x24 + 24 * i` followed by exactly 24
data bytes, and all of the 6 * 24 = 144 data bytes are zero. -/
theorem clear_push_sends_zero_blocks (c : ISSI) (m : LEDmatrix)
    (hw : m.width = 16) (hh : m.height = 9) :
    (push c (clear m)).wire = m.wire ++
      (txEvents m.i2caddr [c.ISSI_COMMANDREGISTER % 256, m.frame] ++
        (List.range 6).flatMap (fun i =>
          txEvents m.i2caddr ((0x24 + 24 * i) :: List.replicate 24 0))) := by
  rw [push_eq, emits_wire, pushEvents]
  show m.wire ++ (txEvents m.i2caddr [c.ISSI_COMMANDREGISTER % 256, m.frame] ++
    (List.range 6).flatMap (fun i => txEvents m.i2caddr (((0x24 + i * 24) % 256) ::
      (List.range 24).map (fun j =>
        scaled ((clear m).matrixBuffer (i * 24 + j)) m.brightness)))) = _
  congr 2
  apply List.flatMap_congr
  intro i hi
  have hi6 : i < 6 := List.mem_range.1 hi
  have e1 : (0x24 + i * 24) % 256 = 0x24 + 24 * i := by omega
  rw [e1]
  congr 2
  rw [List.map_eq_replicate_iff.2, List.length_range]
  intro j hj
  have hj24 : j < 24 := List.mem_range.1 hj
  have : i * 24 + j < m.width * m.height := by rw [hw, hh]; omega
  simp [clear, this, scaled]

/-- Witness of C7: the 16x9 panel after a pixel was drawn, at brightness 200. -/
theorem clear_push_sends_zero_blocks_witness :
    (push issi3731 (clear (setBrightness (drawPixel panel16x9 3 4 255) 200))).wire =
      (setBrightness (drawPixel panel16x9 3 4 255) 200).wire ++
      (txEvents 0x74 [0xFD % 256, 0] ++
        (List.range 6).flatMap (fun i => txEvents 0x74 ((0x24 + 24 * i) :: List.replicate 24 0))) :=
  clear_push_sends_zero_blocks issi3731 (setBrightness (drawPixel panel16x9 3 4 255) 200)
    (by decide) (by decide)

/-- C8: `displayFrame(frame)` sends exactly the events of one register write, that
of the frame-select register of the function bank (the selection of the function
bank, then the register and its value), the value being `frame` when `frame ≤ 7`
and 0 otherwise, hence in 0..7; the bank tracker `_frame` and the frame buffer
are as before. -/
theorem displayFrame_one_register_write (c : ISSI) (m : LEDmatrix) (frame : Nat) :
    (displayFrame c m frame).wire = m.wire ++
      (txEvents m.i2caddr [c.ISSI_COMMANDREGISTER % 256, c.ISSI_BANK_FUNCTIONREG] ++
        txEvents m.i2caddr [c.ISSI_REG_PICTUREFRAME, if frame ≤ 7 then frame else 0]) ∧
    (if frame ≤ 7 then frame else 0) ≤ 7 ∧
    (displayFrame c m frame).frame = m.frame ∧
    (displayFrame c m frame).matrixBuffer = m.matrixBuffer := by
  have e : (if frame > 7 then 0 else frame) = if frame ≤ 7 then frame else 0 := by
    split <;> split <;> omega
  refine ⟨?_, ?_, ?_, ?_⟩
  · rw [displayFrame_eq, emits_wire, regWriteEvents, e]
  · split <;> omega
  · rw [displayFrame_eq, emits_frame]
  · rw [displayFrame_eq, emits_matrixBuffer]

/-- C9: `begin` returns true exactly when the address scan is acknowledged
(`Wire.endTransmission()` returns 0).  When it is not, `begin` returns false
after the events of the scan alone: among them no byte is written, so no bank was
selected and no register written; and the frame buffer is as before. -/
theorem begin_true_iff_acknowledged (c : ISSI) (m : LEDmatrix) (sda scl addr probe : Nat) :
    ((begin c m sda scl addr probe).1 = true ↔ probe = 0) ∧
    (probe ≠ 0 →
      (begin c m sda scl addr probe).1 = false ∧
      (begin c m sda scl addr probe).2.wire = m.wire ++
        [.wireBegin 22 21 addr, .wireSetClock 400000, .beginTransmission addr,
          .endTransmission] ∧
      (∀ b, HwEvent.write b ∉
        [HwEvent.wireBegin 22 21 addr, .wireSetClock 400000, .beginTransmission addr,
          .endTransmission]) ∧
      (begin c m sda scl addr probe).2.matrixBuffer = m.matrixBuffer) := by
  constructor
  · by_cases hp : probe = 0
    · subst hp; rw [begin_of_ack]; simp
    · rw [begin_of_nack _ _ _ _ _ _ hp]; simp [hp]
  · intro hp
    rw [begin_of_nack _ _ _ _ _ _ hp]
    refine ⟨rfl, rfl, ?_, rfl⟩
    intro b hb
    simp at hb

/-- Witness of C9: the scan of address 0x74 answered with status 2 (address not
acknowledged). -/
theorem begin_true_iff_acknowledged_witness :
    (begin issi3731 panel16x9 22 21 0x74 2).1 = false ∧
    (begin issi3731 panel16x9 22 21 0x74 2).2.wire = panel16x9.wire ++
      [.wireBegin 22 21 0x74, .wireSetClock 400000, .beginTransmission 0x74,
        .endTransmission] ∧
    (∀ b, HwEvent.write b ∉
      [HwEvent.wireBegin 22 21 0x74, .wireSetClock 400000, .beginTransmission 0x74,
        .endTransmission]) ∧
    (begin issi3731 panel16x9 22 21 0x74 2).2.matrixBuffer = panel16x9.matrixBuffer :=
  (begin_true_iff_acknowledged issi3731 panel16x9 22 21 0x74 2).2 (by decide)

set_option maxRecDepth 30000 in
/-- C10, counterexample: in the log of a successful `begin` on the 16x9 panel (chip
at 0x74, data-sheet register constants) the register writes of 0xFF that reach
bank 3 are 18, those of the registers 0x00..0x11, and not 144; none of them goes
to one of the 144 PWM registers, which start at 0x24. -/
theorem begin_writes_18_registers_per_bank :
    ((regWritesFrom issi3731 0
        (transmissions (begin issi3731 panel16x9 22 21 0x74 0).2.wire)).filter
      (fun w => w.bank = 3 ∧ w.val = 0xFF)).map (fun w => w.reg) = List.range 18 ∧
    ((regWritesFrom issi3731 0
        (transmissions (begin issi3731 panel16x9 22 21 0x74 0).2.wire)).filter
      (fun w => w.bank = 3 ∧ w.val = 0xFF)).length ≠ 144 := by
  rw [begin_of_ack]
  simp only [emits_wire]
  decide

/-- C10, amended: a successful `begin` sends, after the events of the clear-and-push
and before those that disable audio-sync, for every bank `f` of the eight banks
0..7 in turn, one register write of 0xFF to each of the 18 registers
`i = 0x00..0x11` of that bank (18 register writes per bank, each with its own
bank selection), and nothing else in between. -/
theorem begin_bring_up_sequence (c : ISSI) (m : LEDmatrix) (sda scl addr : Nat) :
    (begin c m sda scl addr 0).1 = true ∧
    (begin c m sda scl addr 0).2.wire = m.wire ++
      (probeEvents addr ++
        regWriteEvents c addr c.ISSI_BANK_FUNCTIONREG c.ISSI_REG_SHUTDOWN 0x00 ++
        [.delay 10] ++
        regWriteEvents c addr c.ISSI_BANK_FUNCTIONREG c.ISSI_REG_SHUTDOWN 0x01 ++
        regWriteEvents c addr c.ISSI_BANK_FUNCTIONREG c.ISSI_REG_CONFIG
          c.ISSI_REG_CONFIG_PICTUREMODE ++
        regWriteEvents c addr c.ISSI_BANK_FUNCTIONREG c.ISSI_REG_PICTUREFRAME 0 ++
        pushEvents c (clear { m with i2caddr := addr, frame := 0 }) ++
        (List.range 8).flatMap (fun f =>
          (List.range 18).flatMap (fun i => regWriteEvents c addr f i 0xff)) ++
        regWriteEvents c addr c.ISSI_BANK_FUNCTIONREG c.ISSI_REG_AUDIOSYNC 0) := by
  rw [begin_of_ack]
  exact ⟨rfl, rfl⟩

/-! ## One call of `loop` -/

theorem getNextFrame_of_some (a : Animation) (nx : AnimationFrame)
    (hn : a.frames[a.currentFrame]? = some nx) :
    a.getNextFrame = (some nx, { a with currentFrame := a.currentFrame + 1 }) := by
  simp [Animation.getNextFrame, hn]

theorem getNextFrame_of_none (a : Animation) (hn : a.frames[a.currentFrame]? = none) :
    a.getNextFrame = (none, a) := by
  simp [Animation.getNextFrame, hn]

theorem rewind_getNextFrame (a : Animation) (f0 : AnimationFrame) (rest : List AnimationFrame)
    (h0 : a.frames = f0 :: rest) :
    a.rewind.getNextFrame = (some f0, { a with currentFrame := 1 }) := by
  simp [Animation.getNextFrame, Animation.rewind, h0]

theorem loop_of_no_frame (p : Player) (t : Nat) (h : p.animationFrame = none) :
    loop p t = some p := by
  simp [loop, h]

theorem loop_of_no_animation (p : Player) (t : Nat) (h : p.animation = none) :
    loop p t = some p := by
  unfold loop
  cases hf : p.animationFrame <;> simp [h]

theorem loop_of_wait (p : Player) (t : Nat) (fr : AnimationFrame) (a : Animation)
    (hf : p.animationFrame = some fr) (ha : p.animation = some a)
    (h : ¬ (((p.currentFrameTime + t : Nat) : ℚ) ≥ fr.duration * 1000)) :
    loop p t = some { p with
      currentFrameTime := p.currentFrameTime + t
      serial := p.serial ++ [.number (p.currentFrameTime + t)] } := by
  simp only [loop, hf, ha, println]
  rw [if_neg h]

theorem loop_of_next (p : Player) (t : Nat) (fr nx : AnimationFrame) (a : Animation)
    (hf : p.animationFrame = some fr) (ha : p.animation = some a)
    (h : ((p.currentFrameTime + t : Nat) : ℚ) ≥ fr.duration * 1000)
    (hn : a.frames[a.currentFrame]? = some nx) :
    loop p t = some
      { matrix := drawBitmap (clear p.matrix) 0 0 a.width a.height nx.data
        animation := some { a with currentFrame := a.currentFrame + 1 }
        animationFrame := some nx
        animationLoop := p.animationLoop
        currentFrameTime := 0
        serial := p.serial ++
          [.number (p.currentFrameTime + t), .draw, .number (a.currentFrame + 1)] } := by
  simp only [loop, hf, ha, println]
  rw [if_pos h]
  simp [getNextFrame_of_some a nx hn, drawAfterAdvance, drawAnimationFrame, println,
    Animation.getWidth, Animation.getHeight]

theorem loop_of_end (p : Player) (t : Nat) (fr : AnimationFrame) (a : Animation)
    (hf : p.animationFrame = some fr) (ha : p.animation = some a)
    (h : ((p.currentFrameTime + t : Nat) : ℚ) ≥ fr.duration * 1000)
    (hn : a.frames[a.currentFrame]? = none) (hl : p.animationLoop = false) :
    loop p t = some { p with
      matrix := clear p.matrix
      animationFrame := none
      currentFrameTime := 0
      serial := p.serial ++ [.number (p.currentFrameTime + t)] } := by
  simp only [loop, hf, ha, println]
  rw [if_pos h]
  simp [getNextFrame_of_none a hn, hl, ha]

theorem loop_of_wrap (p : Player) (t : Nat) (fr f0 : AnimationFrame) (rest : List AnimationFrame)
    (a : Animation) (hf : p.animationFrame = some fr) (ha : p.animation = some a)
    (h : ((p.currentFrameTime + t : Nat) : ℚ) ≥ fr.duration * 1000)
    (hn : a.frames[a.currentFrame]? = none) (hl : p.animationLoop = true)
    (h0 : a.frames = f0 :: rest) :
    loop p t = some
      { matrix := drawBitmap (clear p.matrix) 0 0 a.width a.height f0.data
        animation := some { a with currentFrame := 1 }
        animationFrame := some f0
        animationLoop := true
        currentFrameTime := 0
        serial := p.serial ++
          [.number (p.currentFrameTime + t), .rewind, .draw, .number 1] } := by
  simp only [loop, hf, ha, println]
  rw [if_pos h]
  simp [getNextFrame_of_none a hn, hl, rewind_getNextFrame a f0 rest h0, drawAfterAdvance,
    drawAnimationFrame, println, Animation.getWidth, Animation.getHeight]

theorem loops_of_no_frame (p : Player) (h : p.animationFrame = none) (ts : List Nat) :
    loops p ts = some p := by
  induction ts with
  | nil => rfl
  | cons t ts ih => simp [loops, loop_of_no_frame p t h, ih]

/-- C13, the code at the failing input: on an animation whose frame sequence is
empty `startAnimation` does not complete.  `getNextFrame` hands back the null
pointer, and the next statement reads `animationFrame->data` through it. -/
theorem startAnimation_empty_faults (p : Player) (w h : Nat) (loop : Bool) :
    (Animation.getNextFrame { frames := [], currentFrame := 0, width := w, height := h }).1
      = none ∧
    startAnimation p { frames := [], currentFrame := 0, width := w, height := h } loop = none := by
  simp [startAnimation, Animation.getNextFrame, drawAnimationFrame]

/-- C15: from every player state `stopAnimation()` leaves no animation and no
current frame and the accumulator at 0, leaves every cell of the frame buffer, the
rotation and the brightness as they were, and after it any calls of `loop()`
return the state unchanged. -/
theorem stopAnimation_idles (p : Player) :
    (stopAnimation p).animation = none ∧
    (stopAnimation p).animationFrame = none ∧
    (stopAnimation p).currentFrameTime = 0 ∧
    (∀ i, (stopAnimation p).matrix.matrixBuffer i = p.matrix.matrixBuffer i) ∧
    getRotation (stopAnimation p).matrix = getRotation p.matrix ∧
    getBrightness (stopAnimation p).matrix = getBrightness p.matrix ∧
    ∀ ts, loops (stopAnimation p) ts = some (stopAnimation p) :=
  ⟨rfl, rfl, rfl, fun _ => rfl, rfl, rfl, fun ts => loops_of_no_frame _ rfl ts⟩

/-- C18: while a frame is current, one call `loop(elapsed)` advances by at most one
frame, whatever `elapsed` is.  When the accumulator plus `elapsed` reaches
`duration*1000` the call sets the accumulator to 0, clears the buffer and pulls one
frame: the next of the sequence, blitted over the cleared buffer, the cursor one
further; or, the sequence being exhausted, the first frame again when looping, and
no frame, the buffer left cleared, when not.  Otherwise the call adds `elapsed` to
the accumulator and leaves the frame, the animation and the whole driver state,
every buffer cell included, as they were. -/
theorem loop_advances_at_most_one_frame (p : Player) (t : Nat) (fr : AnimationFrame)
    (a : Animation) (hf : p.animationFrame = some fr) (ha : p.animation = some a)
    (hne : a.frames ≠ []) :
    ((((p.currentFrameTime + t : Nat) : ℚ) ≥ fr.duration * 1000) →
      ∃ q, loop p t = some q ∧ q.currentFrameTime = 0 ∧ q.animationLoop = p.animationLoop ∧
        ((∃ nx, a.frames[a.currentFrame]? = some nx ∧ q.animationFrame = some nx ∧
            q.animation = some { a with currentFrame := a.currentFrame + 1 } ∧
            q.matrix = drawBitmap (clear p.matrix) 0 0 a.width a.height nx.data) ∨
         (∃ f0, a.frames[a.currentFrame]? = none ∧ p.animationLoop = true ∧
            a.frames.head? = some f0 ∧ q.animationFrame = some f0 ∧
            q.animation = some { a with currentFrame := 1 } ∧
            q.matrix = drawBitmap (clear p.matrix) 0 0 a.width a.height f0.data) ∨
         (a.frames[a.currentFrame]? = none ∧ p.animationLoop = false ∧
            q.animationFrame = none ∧ q.animation = some a ∧ q.matrix = clear p.matrix))) ∧
    ((¬ (((p.currentFrameTime + t : Nat) : ℚ) ≥ fr.duration * 1000)) →
      ∃ q, loop p t = some q ∧ q.currentFrameTime = p.currentFrameTime + t ∧
        q.animationFrame = p.animationFrame ∧ q.animation = p.animation ∧
        q.animationLoop = p.animationLoop ∧ q.matrix = p.matrix) := by
  constructor
  · intro h
    cases hn : a.frames[a.currentFrame]? with
    | some nx =>
      exact ⟨_, loop_of_next p t fr nx a hf ha h hn, rfl, rfl, Or.inl ⟨nx, rfl, rfl, rfl, rfl⟩⟩
    | none =>
      cases hl : p.animationLoop with
      | false =>
        exact ⟨_, loop_of_end p t fr a hf ha h hn hl, rfl, hl.symm ▸ rfl,
          Or.inr (Or.inr ⟨rfl, rfl, rfl, ha, rfl⟩)⟩
      | true =>
        obtain ⟨f0, rest, h0⟩ := List.exists_cons_of_ne_nil hne
        exact ⟨_, loop_of_wrap p t fr f0 rest a hf ha h hn hl h0, rfl, rfl,
          Or.inr (Or.inl ⟨f0, rfl, rfl, by simp [h0], rfl, rfl, rfl⟩)⟩
  · intro h
    exact ⟨_, loop_of_wait p t fr a hf ha h, rfl, rfl, rfl, rfl, rfl⟩

/-- Witness of C18: the looping three-frame animation on its first frame; a call
with 1000 ms is a crossing, a call with 500 ms is not. -/
theorem loop_advances_at_most_one_frame_witness :
    (∃ q, loop playingThree 1000 = some q ∧ q.currentFrameTime = 0 ∧
        q.animationLoop = playingThree.animationLoop ∧
        ((∃ nx, ({ threeFrames with currentFrame := 1 } : Animation).frames[
              ({ threeFrames with currentFrame := 1 } : Animation).currentFrame]? = some nx ∧
            q.animationFrame = some nx ∧
            q.animation = some { ({ threeFrames with currentFrame := 1 } : Animation) with
              currentFrame := ({ threeFrames with currentFrame := 1 } : Animation).currentFrame + 1 } ∧
            q.matrix = drawBitmap (clear playingThree.matrix) 0 0
              ({ threeFrames with currentFrame := 1 } : Animation).width
              ({ threeFrames with currentFrame := 1 } : Animation).height nx.data) ∨
         (∃ f0, ({ threeFrames with currentFrame := 1 } : Animation).frames[
              ({ threeFrames with currentFrame := 1 } : Animation).currentFrame]? = none ∧
            playingThree.animationLoop = true ∧
            ({ threeFrames with currentFrame := 1 } : Animation).frames.head? = some f0 ∧
            q.animationFrame = some f0 ∧
            q.animation = some { ({ threeFrames with currentFrame := 1 } : Animation) with
              currentFrame := 1 } ∧
            q.matrix = drawBitmap (clear playingThree.matrix) 0 0
              ({ threeFrames with currentFrame := 1 } : Animation).width
              ({ threeFrames with currentFrame := 1 } : Animation).height f0.data) ∨
         (({ threeFrames with currentFrame := 1 } : Animation).frames[
              ({ threeFrames with currentFrame := 1 } : Animation).currentFrame]? = none ∧
            playingThree.animationLoop = false ∧
            q.animationFrame = none ∧
            q.animation = some ({ threeFrames with currentFrame := 1 } : Animation) ∧
            q.matrix = clear playingThree.matrix))) ∧
    (∃ q, loop playingThree 500 = some q ∧
        q.currentFrameTime = playingThree.currentFrameTime + 500 ∧
        q.animationFrame = playingThree.animationFrame ∧
        q.animation = playingThree.animation ∧
        q.animationLoop = playingThree.animationLoop ∧ q.matrix = playingThree.matrix) :=
  ⟨(loop_advances_at_most_one_frame playingThree 1000 (plainFrame 10 1)
      { threeFrames with currentFrame := 1 } rfl rfl (by simp [threeFrames])).1
      (by norm_num [playingThree, plainFrame]),
   (loop_advances_at_most_one_frame playingThree 500 (plainFrame 10 1)
      { threeFrames with currentFrame := 1 } rfl rfl (by simp [threeFrames])).2
      (by norm_num [playingThree, plainFrame])⟩

/-! ## Blitting a whole frame -/

theorem drawPixel_rot0 (m : LEDmatrix) (j i : Nat) (c : Nat) (hr : m.rotation = 0)
    (hj : j < 16) (hi : i < 9) :
    drawPixel m (wrapInt16 (0 + (j : Int))) (wrapInt16 (0 + (i : Int))) c =
      { m with matrixBuffer := Function.update m.matrixBuffer (j + i * 16) (min c 255) } := by
  have e1 : wrapInt16 (0 + (j : Int)) = j := by unfold wrapInt16; omega
  have e2 : wrapInt16 (0 + (i : Int)) = i := by unfold wrapInt16; omega
  rw [e1, e2]
  apply drawPixel_of_in c j i _ hj hi
  simp [rotateXY_eq, hr]

theorem blitted_zero (m : LEDmatrix) (data : Nat → Nat) : blitted m data 0 = m := by
  simp [blitted]

theorem blitted_succ (m q : LEDmatrix) (data : Nat → Nat) (n : Nat) (hq : q = blitted m data n) :
    blitted m data (n + 1) =
      { q with matrixBuffer := Function.update q.matrixBuffer n (data n % 256) } := by
  subst hq
  unfold blitted
  simp only [LEDmatrix.mk.injEq, true_and, and_true]
  funext k
  by_cases hk : k = n
  · subst hk; simp
  · rw [Function.update_noteq hk]
    have : (k < n + 1) ↔ (k < n) := by omega
    simp [this]

/-- One row of a 16-wide bitmap drawn at the origin, at rotation 0. -/
theorem drawBitmap_row (m : LEDmatrix) (data : Nat → Nat) (i : Nat) (hr : m.rotation = 0)
    (hi : i < 9) (n : Nat) (hn : n ≤ 16) :
    (List.range n).foldl
      (fun s (j : Nat) => drawPixel s (wrapInt16 (0 + (j : Int))) (wrapInt16 (0 + (i : Int)))
        (data (i * 16 + j) % 256)) (blitted m data (i * 16)) = blitted m data (i * 16 + n) := by
  induction n with
  | zero => rfl
  | succ n ih =>
    rw [List.range_succ n, List.foldl_append, ih (by omega)]
    simp only [List.foldl_cons, List.foldl_nil]
    rw [drawPixel_rot0 _ n i _ (by simpa [blitted] using hr) (by omega) hi]
    have e : min (data (i * 16 + n) % 256) 255 = data (i * 16 + n) % 256 := by omega
    have e2 : n + i * 16 = i * 16 + n := by omega
    rw [e, e2]
    exact (blitted_succ m _ data (i * 16 + n) rfl).symm

theorem drawBitmap_rows (m : LEDmatrix) (data : Nat → Nat) (hr : m.rotation = 0)
    (r : Nat) (hrow : r ≤ 9) :
    (List.range r).foldl
      (fun s (i : Nat) => (List.range 16).foldl
        (fun s (j : Nat) => drawPixel s (wrapInt16 (0 + (j : Int))) (wrapInt16 (0 + (i : Int)))
          (data (i * 16 + j) % 256)) s) m = blitted m data (r * 16) := by
  induction r with
  | zero => simp [blitted_zero]
  | succ r ih =>
    rw [List.range_succ r, List.foldl_append, ih (by omega)]
    simp only [List.foldl_cons, List.foldl_nil]
    rw [drawBitmap_row m data r hr (by omega) 16 (by omega)]
    congr 1
    omega

/-- A 16x9 bitmap drawn at the origin at rotation 0 fills the 144 cells with its
bytes, in order. -/
theorem drawBitmap_full (m : LEDmatrix) (data : Nat → Nat) (hr : m.rotation = 0) :
    drawBitmap m 0 0 16 9 data = blitted m data 144 := by
  unfold drawBitmap
  exact drawBitmap_rows m data hr 9 (by omega)

/-! ## A looping animation -/

theorem blitted_buffer (m : LEDmatrix) (data : Nat → Nat) (n i : Nat) (hi : i < n) :
    (blitted m data n).matrixBuffer i = data i % 256 := by
  simp [blitted, hi]

theorem succ_mod_of_lt (k n : Nat) (h : k % n + 1 < n) : (k + 1) % n = k % n + 1 := by
  rw [← Nat.mod_add_mod k n 1, Nat.mod_eq_of_lt h]

theorem succ_mod_of_eq (k n : Nat) (h : k % n + 1 = n) : (k + 1) % n = 0 := by
  rw [← Nat.mod_add_mod k n 1, h, Nat.mod_self]

theorem crosses_eq (q : Player) (t : Nat) (fr : AnimationFrame) (a : Animation)
    (hf : q.animationFrame = some fr) (ha : q.animation = some a) :
    crosses q t = decide (((q.currentFrameTime + t : Nat) : ℚ) ≥ fr.duration * 1000) := by
  simp [crosses, hf, ha]

theorem showsFrame_loop (fs : List AnimationFrame) (hne : fs ≠ []) (k t : Nat) (q : Player)
    (h : ShowsFrame fs k q) :
    ∃ q', loop q t = some q' ∧ ShowsFrame fs (k + (if crosses q t then 1 else 0)) q' := by
  obtain ⟨ha, hl, hr, f, hk, hf, hbuf⟩ := h
  have hn : 0 < fs.length := List.length_pos.2 hne
  have hlt : k % fs.length < fs.length := Nat.mod_lt _ hn
  by_cases hc : ((q.currentFrameTime + t : Nat) : ℚ) ≥ f.duration * 1000
  · have hcr : crosses q t = true := by rw [crosses_eq q t f _ hf ha]; simpa using hc
    rw [hcr, if_pos rfl]
    by_cases hlast : k % fs.length + 1 < fs.length
    · have hnx : fs[k % fs.length + 1]? = some (fs.get ⟨k % fs.length + 1, hlast⟩) := by
        simp [List.getElem?_eq_getElem hlast]
      refine ⟨_, loop_of_next q t f _ _ hf ha hc hnx, ?_⟩
      have e : (k + 1) % fs.length = k % fs.length + 1 := succ_mod_of_lt k _ hlast
      refine ⟨by simp [e], hl, ?_, _, by rw [e]; exact hnx, rfl, ?_⟩
      · rw [drawBitmap_full _ _ (by simpa [clear] using hr)]
        simpa [blitted, clear] using hr
      · intro i hi
        rw [drawBitmap_full _ _ (by simpa [clear] using hr)]
        exact blitted_buffer _ _ _ _ hi
    · have hend : k % fs.length + 1 = fs.length := by omega
      obtain ⟨f0, rest, h0⟩ := List.exists_cons_of_ne_nil hne
      have hnone : fs[k % fs.length + 1]? = none := by
        rw [List.getElem?_eq_none_iff]; omega
      refine ⟨_, loop_of_wrap q t f f0 rest _ hf ha hc hnone hl h0, ?_⟩
      have e : (k + 1) % fs.length = 0 := succ_mod_of_eq k _ hend
      refine ⟨by simp [e], rfl, ?_, f0, by rw [e, h0]; simp, rfl, ?_⟩
      · rw [drawBitmap_full _ _ (by simpa [clear] using hr)]
        simpa [blitted, clear] using hr
      · intro i hi
        rw [drawBitmap_full _ _ (by simpa [clear] using hr)]
        exact blitted_buffer _ _ _ _ hi
  · have hcr : crosses q t = false := by rw [crosses_eq q t f _ hf ha]; simpa using hc
    rw [hcr]
    refine ⟨_, loop_of_wait q t f _ hf ha hc, ?_⟩
    exact ⟨ha, hl, hr, f, hk, hf, hbuf⟩

theorem showsFrame_loops (fs : List AnimationFrame) (hne : fs ≠ []) (ts : List Nat) :
    ∀ (k : Nat) (q : Player), ShowsFrame fs k q →
      ∃ q', loops q ts = some q' ∧ ShowsFrame fs (k + crossings q ts) q' := by
  induction ts with
  | nil => intro k q h; exact ⟨q, rfl, h⟩
  | cons t ts ih =>
    intro k q h
    obtain ⟨q1, h1, hs1⟩ := showsFrame_loop fs hne k t q h
    obtain ⟨q2, h2, hs2⟩ := ih _ q1 hs1
    refine ⟨q2, by simp [loops, h1, h2], ?_⟩
    have e : crossings q (t :: ts) = (if crosses q t then 1 else 0) + crossings q1 ts := by
      simp [crossings, h1]
    rw [e, ← Nat.add_assoc]
    exact hs2

theorem showsFrame_start (p : Player) (fs : List AnimationFrame) (hne : fs ≠ [])
    (hr : p.matrix.rotation = 0) :
    ∃ p0, startAnimation p { frames := fs, currentFrame := 0, width := 16, height := 9 } true
        = some p0 ∧ ShowsFrame fs 0 p0 := by
  obtain ⟨f0, rest, h0⟩ := List.exists_cons_of_ne_nil hne
  subst h0
  refine ⟨_, by simp [startAnimation, Animation.getNextFrame, drawAnimationFrame,
    Animation.getWidth, Animation.getHeight]; rfl, ?_⟩
  refine ⟨by simp, rfl, ?_, f0, by simp, rfl, ?_⟩
  · simp only
    rw [drawBitmap_full _ _ hr]
    simpa [blitted] using hr
  · intro i hi
    simp only
    rw [drawBitmap_full _ _ hr]
    exact blitted_buffer _ _ _ _ hi

/-- C14, amended: in a looping animation a duration crossing that finds the sequence
exhausted rewinds, pulls frame 0 and blits it over the cleared buffer; hence, for
an animation of `n ≥ 1` frames that has not been read yet (its cursor at the first
frame), whose frames are 16x9, started on the 16x9 panel at rotation 0, after any
calls of `loop` with `k` crossings among them the current frame is frame
`k mod n` and the 144 cells of the buffer hold the bytes of that frame. -/
theorem looping_animation_shows_frame_k_mod_n (p : Player) (anim : Animation) (ts : List Nat)
    (hne : anim.frames ≠ []) (hc : anim.currentFrame = 0)
    (hw : p.matrix.width = 16) (hh : p.matrix.height = 9)
    (haw : anim.width = p.matrix.width) (hah : anim.height = p.matrix.height)
    (hr : getRotation p.matrix = 0) :
    (∀ (q : Player) (t : Nat) (fr f0 : AnimationFrame) (rest : List AnimationFrame)
        (a : Animation),
        q.animationFrame = some fr → q.animation = some a → q.animationLoop = true →
        ((q.currentFrameTime + t : Nat) : ℚ) ≥ fr.duration * 1000 →
        a.frames[a.currentFrame]? = none → a.frames = f0 :: rest →
        ∃ q', loop q t = some q' ∧ q'.animationFrame = some f0 ∧
          q'.animation = some { a with currentFrame := 1 } ∧
          q'.matrix = drawBitmap (clear q.matrix) 0 0 a.width a.height f0.data) ∧
    ∃ p0 q f, startAnimation p anim true = some p0 ∧ loops p0 ts = some q ∧
      anim.frames[crossings p0 ts % anim.frames.length]? = some f ∧
      q.animationFrame = some f ∧
      ∀ i, i < 144 → q.matrix.matrixBuffer i = f.data i % 256 := by
  constructor
  · intro q t fr f0 rest a hf ha hl hcross hn h0
    exact ⟨_, loop_of_wrap q t fr f0 rest a hf ha hcross hn hl h0, rfl, rfl, rfl⟩
  · have ea : anim = { frames := anim.frames, currentFrame := 0, width := 16, height := 9 } := by
      cases anim
      simp only [Animation.mk.injEq, true_and]
      exact ⟨hc, haw.trans hw, hah.trans hh⟩
    obtain ⟨p0, hs, h0⟩ := showsFrame_start p anim.frames hne hr
    obtain ⟨q, hq, hsq⟩ := showsFrame_loops anim.frames hne ts 0 p0 h0
    obtain ⟨-, -, -, f, hk, hf, hbuf⟩ := hsq
    rw [Nat.zero_add] at hk
    exact ⟨p0, q, f, by rw [ea]; exact hs, hq, hk, hf, hbuf⟩

/-! ## Runs of `loop` -/

theorem playerAt_wait (q : Player) (t : Nat) (fr : AnimationFrame) (a : Animation) (c : Nat)
    (l : Bool) (h : PlayerAt q fr a c l) (hc : ¬ (((c + t : Nat) : ℚ) ≥ fr.duration * 1000)) :
    ∃ q', loop q t = some q' ∧ crosses q t = false ∧ PlayerAt q' fr a (c + t) l ∧
      q'.matrix = q.matrix := by
  obtain ⟨hf, ha, hcft, hl⟩ := h
  subst hcft
  exact ⟨_, loop_of_wait q t fr a hf ha hc,
    by rw [crosses_eq q t fr a hf ha]; simpa using hc, ⟨hf, ha, rfl, hl⟩, rfl⟩

theorem playerAt_next (q : Player) (t : Nat) (fr nx : AnimationFrame) (a : Animation) (c : Nat)
    (l : Bool) (h : PlayerAt q fr a c l) (hc : ((c + t : Nat) : ℚ) ≥ fr.duration * 1000)
    (hn : a.frames[a.currentFrame]? = some nx) :
    ∃ q', loop q t = some q' ∧ crosses q t = true ∧
      PlayerAt q' nx { a with currentFrame := a.currentFrame + 1 } 0 l ∧
      q'.matrix = drawBitmap (clear q.matrix) 0 0 a.width a.height nx.data := by
  obtain ⟨hf, ha, hcft, hl⟩ := h
  subst hcft
  exact ⟨_, loop_of_next q t fr nx a hf ha hc hn,
    by rw [crosses_eq q t fr a hf ha]; simpa using hc, ⟨rfl, rfl, rfl, hl⟩, rfl⟩

theorem playerAt_wrap (q : Player) (t : Nat) (fr f0 : AnimationFrame)
    (rest : List AnimationFrame) (a : Animation) (c : Nat)
    (h : PlayerAt q fr a c true) (hc : ((c + t : Nat) : ℚ) ≥ fr.duration * 1000)
    (hn : a.frames[a.currentFrame]? = none) (h0 : a.frames = f0 :: rest) :
    ∃ q', loop q t = some q' ∧ crosses q t = true ∧
      PlayerAt q' f0 { a with currentFrame := 1 } 0 true ∧
      q'.matrix = drawBitmap (clear q.matrix) 0 0 a.width a.height f0.data := by
  obtain ⟨hf, ha, hcft, hl⟩ := h
  subst hcft
  exact ⟨_, loop_of_wrap q t fr f0 rest a hf ha hc hn hl h0,
    by rw [crosses_eq q t fr a hf ha]; simpa using hc, ⟨rfl, rfl, rfl, rfl⟩, rfl⟩

theorem playerAt_end (q : Player) (t : Nat) (fr : AnimationFrame) (a : Animation) (c : Nat)
    (h : PlayerAt q fr a c false) (hc : ((c + t : Nat) : ℚ) ≥ fr.duration * 1000)
    (hn : a.frames[a.currentFrame]? = none) :
    ∃ q', loop q t = some q' ∧ crosses q t = true ∧ q'.animationFrame = none ∧
      q'.matrix = clear q.matrix := by
  obtain ⟨hf, ha, hcft, hl⟩ := h
  subst hcft
  exact ⟨_, loop_of_end q t fr a hf ha hc hn hl,
    by rw [crosses_eq q t fr a hf ha]; simpa using hc, rfl, rfl⟩

theorem playerAt_start (p : Player) (f0 : AnimationFrame) (rest : List AnimationFrame)
    (w h : Nat) (l : Bool) :
    ∃ p0, startAnimation p { frames := f0 :: rest, currentFrame := 0, width := w, height := h } l
        = some p0 ∧
      PlayerAt p0 f0 { frames := f0 :: rest, currentFrame := 1, width := w, height := h } 0 l ∧
      p0.matrix = drawBitmap p.matrix 0 0 w h f0.data :=
  ⟨_, by simp [startAnimation, Animation.getNextFrame, drawAnimationFrame,
    Animation.getWidth, Animation.getHeight]; rfl, ⟨rfl, rfl, rfl, rfl⟩, rfl⟩

theorem loops_cons_of (p q : Player) (t : Nat) (ts : List Nat) (h : loop p t = some q) :
    loops p (t :: ts) = loops q ts := by
  simp [loops, h]

theorem crossings_cons_of (p q : Player) (t : Nat) (ts : List Nat) (h : loop p t = some q) :
    crossings p (t :: ts) = (if crosses p t then 1 else 0) + crossings q ts := by
  simp [crossings, h]

/-- C11: a looping animation of three frames of 1 s each is started and `loop(500)`
is called repeatedly.  Among the first three calls exactly one is a duration
crossing (the second), and after them frame 1 is current; among the first six
exactly three are, and after them the animation has wrapped to frame 0. -/
theorem three_frame_loop_polled_500 (p : Player) (f0 f1 f2 : AnimationFrame) (w h : Nat)
    (h0 : f0.duration = 1) (h1 : f1.duration = 1) (h2 : f2.duration = 1) :
    ∃ p0 q3 q6,
      startAnimation p { frames := [f0, f1, f2], currentFrame := 0, width := w, height := h } true
        = some p0 ∧
      loops p0 [500, 500, 500] = some q3 ∧
      crossings p0 [500, 500, 500] = 1 ∧
      q3.animationFrame = some f1 ∧
      q3.animation = some { frames := [f0, f1, f2], currentFrame := 2, width := w, height := h } ∧
      loops p0 [500, 500, 500, 500, 500, 500] = some q6 ∧
      crossings p0 [500, 500, 500, 500, 500, 500] = 3 ∧
      q6.animationFrame = some f0 ∧
      q6.animation = some { frames := [f0, f1, f2], currentFrame := 1, width := w, height := h } := by
  obtain ⟨p0, hs, a0, -⟩ := playerAt_start p f0 [f1, f2] w h true
  obtain ⟨q1, l1, c1, a1, -⟩ := playerAt_wait p0 500 _ _ _ _ a0 (by norm_num [h0])
  obtain ⟨q2, l2, c2, a2, -⟩ := playerAt_next q1 500 _ f1 _ _ _ a1 (by norm_num [h0]) rfl
  obtain ⟨q3, l3, c3, a3, -⟩ := playerAt_wait q2 500 _ _ _ _ a2 (by norm_num [h1])
  obtain ⟨q4, l4, c4, a4, -⟩ := playerAt_next q3 500 _ f2 _ _ _ a3 (by norm_num [h1]) rfl
  obtain ⟨q5, l5, c5, a5, -⟩ := playerAt_wait q4 500 _ _ _ _ a4 (by norm_num [h2])
  obtain ⟨q6, l6, c6, a6, -⟩ := playerAt_wrap q5 500 _ f0 [f1, f2] _ _ a5 (by norm_num [h2]) rfl rfl
  refine ⟨p0, q3, q6, hs, ?_, ?_, a3.1, a3.2.1, ?_, ?_, a6.1, a6.2.1⟩
  · rw [loops_cons_of _ _ _ _ l1, loops_cons_of _ _ _ _ l2, loops_cons_of _ _ _ _ l3]; rfl
  · rw [crossings_cons_of _ _ _ _ l1, crossings_cons_of _ _ _ _ l2,
      crossings_cons_of _ _ _ _ l3, c1, c2, c3]; rfl
  · rw [loops_cons_of _ _ _ _ l1, loops_cons_of _ _ _ _ l2, loops_cons_of _ _ _ _ l3,
      loops_cons_of _ _ _ _ l4, loops_cons_of _ _ _ _ l5, loops_cons_of _ _ _ _ l6]; rfl
  · rw [crossings_cons_of _ _ _ _ l1, crossings_cons_of _ _ _ _ l2,
      crossings_cons_of _ _ _ _ l3, crossings_cons_of _ _ _ _ l4,
      crossings_cons_of _ _ _ _ l5, crossings_cons_of _ _ _ _ l6, c1, c2, c3, c4, c5, c6]; rfl

/-- Witness of C11: three plain frames of one second on the constructed panel. -/
theorem three_frame_loop_polled_500_witness :
    ∃ p0 q3 q6,
      startAnimation (idlePlayer panel16x9) threeFrames true = some p0 ∧
      loops p0 [500, 500, 500] = some q3 ∧
      crossings p0 [500, 500, 500] = 1 ∧
      q3.animationFrame = some (plainFrame 20 1) ∧
      q3.animation = some { threeFrames with currentFrame := 2 } ∧
      loops p0 [500, 500, 500, 500, 500, 500] = some q6 ∧
      crossings p0 [500, 500, 500, 500, 500, 500] = 3 ∧
      q6.animationFrame = some (plainFrame 10 1) ∧
      q6.animation = some { threeFrames with currentFrame := 1 } :=
  three_frame_loop_polled_500 (idlePlayer panel16x9) (plainFrame 10 1) (plainFrame 20 1)
    (plainFrame 30 1) 16 9 rfl rfl rfl

/-! ## An animation that is not looped -/

theorem drawPixel_size (m : LEDmatrix) (x y : Int) (color : Nat) :
    (drawPixel m x y color).width = m.width ∧ (drawPixel m x y color).height = m.height := by
  unfold drawPixel
  dsimp only
  split
  · exact ⟨rfl, rfl⟩
  · split <;> exact ⟨rfl, rfl⟩

theorem drawBitmap_size (m : LEDmatrix) (x y : Int) (w h : Nat) (data : Nat → Nat) :
    (drawBitmap m x y w h data).width = m.width ∧
      (drawBitmap m x y w h data).height = m.height := by
  unfold drawBitmap
  refine foldl_invariant (fun s => s.width = m.width ∧ s.height = m.height) _ ?_ _ m ⟨rfl, rfl⟩
  intro a i ha
  refine foldl_invariant (fun s => s.width = m.width ∧ s.height = m.height) _ ?_ _ a ha
  intro b j hb
  exact ⟨(drawPixel_size b _ _ _).1.trans hb.1, (drawPixel_size b _ _ _).2.trans hb.2⟩

theorem clear_buffer_lt (m : LEDmatrix) (i : Nat) (h : i < m.width * m.height) :
    (clear m).matrixBuffer i = 0 := by
  simp [clear, h]

/-- The last frame of an animation that is not looped: once the elapsed times
reach its duration the player has no frame and the buffer is cleared. -/
theorem loops_last_frame (fr : AnimationFrame) (a : Animation)
    (hn : a.frames[a.currentFrame]? = none) (ts : List Nat) :
    ∀ (q : Player) (c : Nat), PlayerAt q fr a c false → ts ≠ [] →
      ((c + ts.sum : Nat) : ℚ) ≥ fr.duration * 1000 →
      ∃ q', loops q ts = some q' ∧ q'.animationFrame = none ∧ q'.matrix = clear q.matrix := by
  induction ts with
  | nil => intro q c _ h; exact absurd rfl h
  | cons t ts ih =>
    intro q c hq _ hsum
    by_cases hc : ((c + t : Nat) : ℚ) ≥ fr.duration * 1000
    · obtain ⟨q1, l1, -, hf1, hm1⟩ := playerAt_end q t fr a c hq hc hn
      exact ⟨q1, by rw [loops_cons_of _ _ _ _ l1, loops_of_no_frame q1 hf1], hf1, hm1⟩
    · obtain ⟨q1, l1, -, a1, hm1⟩ := playerAt_wait q t fr a c false hq hc
      have hts : ts ≠ [] := by
        rintro rfl
        apply hc
        simpa using hsum
      have hsum1 : ((c + t + ts.sum : Nat) : ℚ) ≥ fr.duration * 1000 := by
        have e : c + t + ts.sum = c + (t :: ts).sum := by simp [Nat.add_assoc]
        rw [e]; exact hsum
      obtain ⟨q2, l2, hf2, hm2⟩ := ih q1 (c + t) a1 hts hsum1
      exact ⟨q2, by rw [loops_cons_of _ _ _ _ l1]; exact l2, hf2, by rw [hm2, hm1]⟩

/-- The last frame but one of an animation that is not looped. -/
theorem loops_two_frames (fr nx : AnimationFrame) (a : Animation)
    (h1 : a.frames[a.currentFrame]? = some nx) (h2 : a.frames[a.currentFrame + 1]? = none)
    (ts2 : List Nat) (hts2 : ts2 ≠ []) (hsum2 : ((ts2.sum : Nat) : ℚ) ≥ nx.duration * 1000)
    (ts1 : List Nat) :
    ∀ (q : Player) (c : Nat), PlayerAt q fr a c false → ts1 ≠ [] →
      ((c + ts1.sum : Nat) : ℚ) ≥ fr.duration * 1000 →
      ∃ q', loops q (ts1 ++ ts2) = some q' ∧ q'.animationFrame = none ∧
        ∀ i, i < q.matrix.width * q.matrix.height → q'.matrix.matrixBuffer i = 0 := by
  induction ts1 with
  | nil => intro q c _ h; exact absurd rfl h
  | cons t ts ih =>
    intro q c hq _ hsum
    by_cases hc : ((c + t : Nat) : ℚ) ≥ fr.duration * 1000
    · obtain ⟨q1, l1, -, a1, hm1⟩ := playerAt_next q t fr nx a c false hq hc h1
      have hne : ts ++ ts2 ≠ [] := by simp [hts2]
      have hs : ((0 + (ts ++ ts2).sum : Nat) : ℚ) ≥ nx.duration * 1000 := by
        have e : ((0 + (ts ++ ts2).sum : Nat) : ℚ) = (ts.sum : ℚ) + (ts2.sum : ℚ) := by
          simp
        rw [e]
        have : (0 : ℚ) ≤ (ts.sum : ℚ) := Nat.cast_nonneg _
        linarith
      obtain ⟨q2, l2, hf2, hm2⟩ := loops_last_frame nx _ h2 (ts ++ ts2) q1 0 a1 hne hs
      refine ⟨q2, by rw [List.cons_append, loops_cons_of _ _ _ _ l1]; exact l2, hf2, ?_⟩
      intro i hi
      rw [hm2, hm1]
      have hsz := drawBitmap_size (clear q.matrix) 0 0 a.width a.height nx.data
      have : i < (drawBitmap (clear q.matrix) 0 0 a.width a.height nx.data).width *
          (drawBitmap (clear q.matrix) 0 0 a.width a.height nx.data).height := by
        rw [hsz.1, hsz.2]; exact hi
      exact clear_buffer_lt _ _ this
    · obtain ⟨q1, l1, -, a1, hm1⟩ := playerAt_wait q t fr a c false hq hc
      have hts : ts ≠ [] := by
        rintro rfl
        apply hc
        simpa using hsum
      have hsum1 : ((c + t + ts.sum : Nat) : ℚ) ≥ fr.duration * 1000 := by
        have e : c + t + ts.sum = c + (t :: ts).sum := by simp [Nat.add_assoc]
        rw [e]; exact hsum
      obtain ⟨q2, l2, hf2, hb2⟩ := ih q1 (c + t) a1 hts hsum1
      refine ⟨q2, by rw [List.cons_append, loops_cons_of _ _ _ _ l1]; exact l2, hf2, ?_⟩
      intro i hi
      exact hb2 i (by rw [hm1]; exact hi)

/-- C12, counterexample: the two frames of one second each, not looped, on the
constructed 16x9 panel.  After the calls `loop(999)`, `loop(999)`, `loop(3)`, 2001 ms
in total and more than the 2000 ms of both durations, frame 1 is still current.
After `loop(1000)`, `loop(1001)`, 2001 ms in total again, no frame is current and
cell 0 of the buffer holds 0, not the byte 20 of frame 1. -/
theorem two_frame_animation_overshoot :
    (((999 + 999 + 3 : Nat) : ℚ) > (1 + 1) * 1000) ∧
    (∃ p0 q, startAnimation (idlePlayer panel16x9) twoFrames false = some p0 ∧
      loops p0 [999, 999, 3] = some q ∧ q.animationFrame = some (plainFrame 20 1)) ∧
    ((((1000 + 1001 : Nat) : ℚ) > (1 + 1) * 1000) ∧
      ∃ p0 q, startAnimation (idlePlayer panel16x9) twoFrames false = some p0 ∧
        loops p0 [1000, 1001] = some q ∧ q.animationFrame = none ∧
        q.matrix.matrixBuffer 0 = 0 ∧ (plainFrame 20 1).data 0 % 256 = 20) := by
  obtain ⟨p0, hs, a0, hm0⟩ := playerAt_start (idlePlayer panel16x9) (plainFrame 10 1)
    [plainFrame 20 1] 16 9 false
  refine ⟨by norm_num, ?_, ?_⟩
  · obtain ⟨q1, l1, -, a1, -⟩ := playerAt_wait p0 999 _ _ _ _ a0 (by norm_num [plainFrame])
    obtain ⟨q2, l2, -, a2, -⟩ := playerAt_next q1 999 _ (plainFrame 20 1) _ _ _ a1
      (by norm_num [plainFrame]) rfl
    obtain ⟨q3, l3, -, a3, -⟩ := playerAt_wait q2 3 _ _ _ _ a2 (by norm_num [plainFrame])
    exact ⟨p0, q3, hs, by rw [loops_cons_of _ _ _ _ l1, loops_cons_of _ _ _ _ l2,
      loops_cons_of _ _ _ _ l3]; rfl, a3.1⟩
  · obtain ⟨q1, l1, -, a1, hm1⟩ := playerAt_next p0 1000 _ (plainFrame 20 1) _ _ _ a0
      (by norm_num [plainFrame]) rfl
    obtain ⟨q2, l2, -, hf2, hm2⟩ := playerAt_end q1 1001 _ _ _ a1 (by norm_num [plainFrame]) rfl
    refine ⟨by norm_num, p0, q2, hs,
      by rw [loops_cons_of _ _ _ _ l1, loops_cons_of _ _ _ _ l2]; rfl, hf2, ?_, rfl⟩
    rw [hm2, hm1]
    have hsz := drawBitmap_size (clear p0.matrix) 0 0 16 9 (plainFrame 20 1).data
    have hsz0 := drawBitmap_size (idlePlayer panel16x9).matrix 0 0 16 9 (plainFrame 10 1).data
    have hw : (clear p0.matrix).width = 16 := by
      show p0.matrix.width = 16
      rw [hm0, hsz0.1]; rfl
    have hh : (clear p0.matrix).height = 9 := by
      show p0.matrix.height = 9
      rw [hm0, hsz0.2]; rfl
    apply clear_buffer_lt
    rw [hsz.1, hsz.2, hw, hh]
    decide

/-- C12, amended: a two-frame animation is started with `loop = false`, then `loop`
is called with a first run of elapsed times (at least one call) that total at
least the duration of frame 0 in ms, followed by a second run (at least one call)
that total at least the duration of frame 1.  Afterwards the player holds no
current frame, any further calls of `loop` return the state unchanged, and the
`width * height` cells of the buffer are zero: it was cleared at the second
crossing. -/
theorem two_frame_animation_ends (p : Player) (f0 f1 : AnimationFrame) (w h : Nat)
    (ts1 ts2 : List Nat) (hne1 : ts1 ≠ []) (hne2 : ts2 ≠ [])
    (hsum1 : ((ts1.sum : Nat) : ℚ) ≥ f0.duration * 1000)
    (hsum2 : ((ts2.sum : Nat) : ℚ) ≥ f1.duration * 1000) :
    ∃ p0 q,
      startAnimation p { frames := [f0, f1], currentFrame := 0, width := w, height := h } false
        = some p0 ∧
      loops p0 (ts1 ++ ts2) = some q ∧
      q.animationFrame = none ∧
      (∀ ts, loops q ts = some q) ∧
      ∀ i, i < p.matrix.width * p.matrix.height → q.matrix.matrixBuffer i = 0 := by
  obtain ⟨p0, hs, a0, hm0⟩ := playerAt_start p f0 [f1] w h false
  obtain ⟨q, hq, hf, hb⟩ := loops_two_frames f0 f1
    { frames := [f0, f1], currentFrame := 1, width := w, height := h } rfl rfl ts2 hne2 hsum2
    ts1 p0 0 a0 hne1 (by simpa using hsum1)
  refine ⟨p0, q, hs, hq, hf, fun ts => loops_of_no_frame q hf ts, ?_⟩
  intro i hi
  apply hb
  have hsz := drawBitmap_size p.matrix 0 0 w h f0.data
  rw [hm0, hsz.1, hsz.2]
  exact hi

/-- Witness of C12 (amended): frames of one second, polled 600 + 600 ms and then
1000 ms. -/
theorem two_frame_animation_ends_witness :
    ∃ p0 q,
      startAnimation (idlePlayer panel16x9) twoFrames false = some p0 ∧
      loops p0 ([600, 600] ++ [1000]) = some q ∧
      q.animationFrame = none ∧
      (∀ ts, loops q ts = some q) ∧
      ∀ i, i < (idlePlayer panel16x9).matrix.width * (idlePlayer panel16x9).matrix.height →
        q.matrix.matrixBuffer i = 0 :=
  two_frame_animation_ends (idlePlayer panel16x9) (plainFrame 10 1) (plainFrame 20 1) 16 9
    [600, 600] [1000] (by simp) (by simp) (by norm_num [plainFrame]) (by norm_num [plainFrame])

/-! ## Composing rotations, and the brightness scaling -/

theorem rotateXY_rot1 (m : LEDmatrix) (x y : Int) :
    rotateXY (setRotation m 1) x y = (wrapInt16 (m.width - y - 1), x) := by
  simp [rotateXY_eq, setRotation]

theorem rotateXY_rot2 (m : LEDmatrix) (x y : Int) :
    rotateXY (setRotation m 2) x y =
      (wrapInt16 (m.width - x - 1), wrapInt16 (m.height - y - 1)) := by
  simp [rotateXY_eq, setRotation]

theorem rotateXY_rot3 (m : LEDmatrix) (x y : Int) :
    rotateXY (setRotation m 3) x y = (y, wrapInt16 (m.height - x - 1)) := by
  simp [rotateXY_eq, setRotation]

/-- C19: for every panel width and height and every `int16` pair `(x, y)`, the
rotation-3 transform of `drawPixel` is the rotation-2 transform applied to the
result of the rotation-1 transform; where `height - x - 1` does not wrap it is
`(y, height - x - 1)`; and the rotation-2 transform applied twice gives back
`(x, y)`. -/
theorem rotation3_eq_rotation2_of_rotation1 (m : LEDmatrix) (x y : Int)
    (hx : -32768 ≤ x ∧ x ≤ 32767) (hy : -32768 ≤ y ∧ y ≤ 32767) :
    rotateXY (setRotation m 3) x y =
      rotateXY (setRotation m 2) (rotateXY (setRotation m 1) x y).1
        (rotateXY (setRotation m 1) x y).2 ∧
    ((m.height : Int) - x - 1 ≤ 32767 →
      rotateXY (setRotation m 3) x y = (y, (m.height : Int) - x - 1)) ∧
    rotateXY (setRotation m 2) (rotateXY (setRotation m 2) x y).1
      (rotateXY (setRotation m 2) x y).2 = (x, y) := by
  simp only [rotateXY_rot1, rotateXY_rot2, rotateXY_rot3, wrapInt16, Prod.mk.injEq, true_and,
    and_true]
  refine ⟨?_, fun hnw => ?_, ?_, ?_⟩ <;> omega

/-- Witness of C19: the 16x9 panel and the pixel `(3, 4)`. -/
theorem rotation3_eq_rotation2_of_rotation1_witness :
    rotateXY (setRotation panel16x9 3) 3 4 =
      rotateXY (setRotation panel16x9 2) (rotateXY (setRotation panel16x9 1) 3 4).1
        (rotateXY (setRotation panel16x9 1) 3 4).2 ∧
    ((panel16x9.height : Int) - 3 - 1 ≤ 32767 →
      rotateXY (setRotation panel16x9 3) 3 4 = (4, (panel16x9.height : Int) - 3 - 1)) ∧
    rotateXY (setRotation panel16x9 2) (rotateXY (setRotation panel16x9 2) 3 4).1
      (rotateXY (setRotation panel16x9 2) 3 4).2 = (3, 4) :=
  rotation3_eq_rotation2_of_rotation1 panel16x9 3 4 (by decide) (by decide)

/-- C20: for a stored intensity `s` and a brightness `b` in 0..255 the quotient
`s * b / 255` that `push` and `setLEDPWM` compute is at most `min s b`, so its
narrowing to a byte does not wrap (the byte sent is the quotient itself); at
brightness 255 the byte is `s`, at brightness 0 it is 0. -/
theorem scaled_le_min (s b : Nat) (hs : s ≤ 255) (hb : b ≤ 255) :
    s * b / 255 ≤ min s b ∧
    scaled s b = s * b / 255 ∧
    scaled s 255 = s ∧
    scaled s 0 = 0 ∧
    (∀ (c : ISSI) (m : LEDmatrix) (lednum bank : Nat), lednum < 144 → m.brightness = b →
      (setLEDPWM c m lednum s bank).wire =
        m.wire ++ regWriteEvents c m.i2caddr bank (0x24 + lednum) (s * b / 255)) := by
  have h1 : s * b / 255 ≤ s := by
    apply Nat.div_le_of_le_mul
    calc s * b ≤ s * 255 := Nat.mul_le_mul_left s hb
      _ = 255 * s := Nat.mul_comm _ _
  have h2 : s * b / 255 ≤ b := by
    apply Nat.div_le_of_le_mul
    exact Nat.mul_le_mul_right b hs
  refine ⟨le_min h1 h2, scaled_eq hs hb, ?_, ?_, ?_⟩
  · rw [scaled_eq hs (by omega)]; omega
  · simp [scaled]
  · intro c m lednum bank hl hbr
    have hl' : ¬ lednum ≥ 144 := by omega
    have e : (0x24 + lednum) % 256 = 0x24 + lednum := by omega
    rw [setLEDPWM_eq, emits_wire, if_neg hl', hbr, scaled_eq hs hb, e]

/-- Witness of C20: intensity 100 at brightness 128. -/
theorem scaled_le_min_witness :
    100 * 128 / 255 ≤ min 100 128 ∧
    scaled 100 128 = 100 * 128 / 255 ∧
    scaled 100 255 = 100 ∧
    scaled 100 0 = 0 ∧
    (∀ (c : ISSI) (m : LEDmatrix) (lednum bank : Nat), lednum < 144 → m.brightness = 128 →
      (setLEDPWM c m lednum 100 bank).wire =
        m.wire ++ regWriteEvents c m.i2caddr bank (0x24 + lednum) (100 * 128 / 255)) :=
  scaled_le_min 100 128 (by decide) (by decide)

/-! ## Characters and strings -/

theorem foldl_invariant_mem {α β : Type} (P : α → Prop) (f : α → β → α) (l : List β)
    (hf : ∀ a b, b ∈ l → P a → P (f a b)) (a : α) (ha : P a) : P (l.foldl f a) := by
  induction l generalizing a with
  | nil => exact ha
  | cons b l ih =>
    exact ih (fun a' b' hb' => hf a' b' (List.mem_cons_of_mem _ hb')) _
      (hf a b (List.mem_cons_self _ _) ha)

/-- At rotation 0 a `drawPixel` in another column leaves the cell alone. -/
theorem drawPixel_other_column (m : LEDmatrix) (X Y : Int) (color : Nat) (cx cy : Nat)
    (hr : m.rotation = 0) (hcx : cx < 16) (hX : X ≠ cx) :
    (drawPixel m X Y color).matrixBuffer (cx + cy * 16) = m.matrixBuffer (cx + cy * 16) := by
  have hp : rotateXY m X Y = (X, Y) := by simp [rotateXY_eq, hr]
  unfold drawPixel
  simp only [hp]
  split
  · rfl
  · split
    · rfl
    · apply Function.update_noteq
      omega

/-- The cells that `drawChar` at column `X` can change lie in the columns
`X .. X + 4`: at rotation 0 on a 16x9 panel every cell of another column keeps its
value, and so do the size and the rotation. -/
theorem drawChar_other_column (font : Nat → Nat) (m : LEDmatrix) (X y : Int) (ch b : Nat)
    (cx cy : Nat) (hw : m.width = 16) (hr : m.rotation = 0)
    (hcx : cx < 16) (hX : (cx : Int) < X ∨ X + 4 < (cx : Int)) :
    (drawChar font m X y ch b).matrixBuffer (cx + cy * 16) = m.matrixBuffer (cx + cy * 16) ∧
    (drawChar font m X y ch b).width = 16 ∧ (drawChar font m X y ch b).rotation = 0 := by
  unfold drawChar
  refine foldl_invariant
    (fun s : LEDmatrix × Nat => s.1.matrixBuffer (cx + cy * 16) = m.matrixBuffer (cx + cy * 16) ∧
      s.1.width = 16 ∧ s.1.rotation = 0) _ ?_ _ (m, 1) ⟨rfl, hw, hr⟩
  intro st j hst
  refine foldl_invariant_mem
    (fun s : LEDmatrix => s.matrixBuffer (cx + cy * 16) = m.matrixBuffer (cx + cy * 16) ∧
      s.width = 16 ∧ s.rotation = 0) _ _ ?_ st.1 hst
  intro a k hk ha
  have hk5 : k < 5 := List.mem_range.1 hk
  dsimp only
  split_ifs with h1 h2
  · obtain ⟨hx0, -, hxw, -⟩ := h2
    rw [ha.2.1] at hxw
    have e : wrapInt16 (X + (k : Int)) = X + k := by unfold wrapInt16; omega
    refine ⟨?_, (drawPixel_size a _ _ _).1.trans ha.2.1,
      (drawPixel_rotation a _ _ _).trans ha.2.2⟩
    rw [e, drawPixel_other_column a _ _ _ cx cy ha.2.2 hcx (by omega)]
    exact ha.1
  · exact ha
  · exact ha

theorem drawChar_size (font : Nat → Nat) (m : LEDmatrix) (x y : Int) (ch b : Nat) :
    (drawChar font m x y ch b).width = m.width ∧ (drawChar font m x y ch b).height = m.height := by
  unfold drawChar
  refine foldl_invariant
    (fun s : LEDmatrix × Nat => s.1.width = m.width ∧ s.1.height = m.height) _ ?_ _ (m, 1)
    ⟨rfl, rfl⟩
  intro st j hst
  refine foldl_invariant (fun s => s.width = m.width ∧ s.height = m.height) _ ?_ _ st.1 hst
  intro a k ha
  dsimp only
  split_ifs <;> first
    | exact ha
    | exact ⟨(drawPixel_size a _ _ _).1.trans ha.1, (drawPixel_size a _ _ _).2.trans ha.2⟩

theorem drawString_cons (font : Nat → Nat) (m : LEDmatrix) (x y : Int) (c : Nat)
    (rest : List Nat) (b : Nat) :
    drawString font m x y (c :: rest) b =
      drawString font (drawChar font m x y c b) (x + 6) y rest b := rfl

theorem drawString_other_column (font : Nat → Nat) (y : Int) (b : Nat) (cx cy : Nat)
    (hcx : cx < 16) (s : List Nat) :
    ∀ (m : LEDmatrix) (X : Int), m.width = 16 → m.rotation = 0 → (cx : Int) < X →
      (drawString font m X y s b).matrixBuffer (cx + cy * 16) = m.matrixBuffer (cx + cy * 16) := by
  induction s with
  | nil => intro m X _ _ _; rfl
  | cons c rest ih =>
    intro m X hw hr hX
    obtain ⟨h1, h2, h3⟩ := drawChar_other_column font m X y c b cx cy hw hr hcx (Or.inl hX)
    rw [drawString_cons, ih _ (X + 6) h2 h3 (by omega), h1]

/-- C17: on a panel 16 wide (the 16x9 panel among them) at rotation 0, whatever the
buffer holds, for a non-empty string the cells of the columns `x .. x + 5`, in
every row `cy`, are after `drawString` what they are after `drawChar` of the first
character alone: `drawString` draws the first character by `drawChar` at `x` and
the rest of the string from `x + 6` on, and `drawChar` at a column `X` changes no
cell outside the columns `X .. X + 4`. -/
theorem drawString_keeps_first_cell (font : Nat → Nat) (m : LEDmatrix) (x y : Int) (c : Nat)
    (rest : List Nat) (b : Nat) (cx cy : Nat)
    (hw : m.width = 16) (hr : getRotation m = 0)
    (hcx : cx < m.width) (hcol : x ≤ (cx : Int) ∧ (cx : Int) ≤ x + 5) :
    (drawString font m x y (c :: rest) b).matrixBuffer (cx + cy * m.width) =
      (drawChar font m x y c b).matrixBuffer (cx + cy * m.width) ∧
    drawString font m x y (c :: rest) b =
      drawString font (drawChar font m x y c b) (x + 6) y rest b ∧
    (∀ (X : Int) (ch kx : Nat), kx < m.width → ((kx : Int) < X ∨ X + 4 < (kx : Int)) →
      (drawChar font m X y ch b).matrixBuffer (kx + cy * m.width) =
        m.matrixBuffer (kx + cy * m.width)) := by
  rw [hw] at hcx ⊢
  refine ⟨?_, rfl, ?_⟩
  · rw [drawString_cons]
    have hc := drawChar_rotation font m x y c b
    have hs : (drawChar font m x y c b).width = 16 := by
      exact (drawChar_size font m x y c b).1.trans hw
    exact drawString_other_column font y b cx cy hcx rest _ (x + 6) hs (hc.trans hr) (by omega)
  · intro X ch kx hkx hX
    exact (drawChar_other_column font m X y ch b kx cy hw hr hkx hX).1

/-- Witness of C17: the string AB (bytes 65, 66) at `(0, 0)` with intensity 255, read at
column 2 of row 3, with a font whose byte `k` is `k mod 128`. -/
theorem drawString_keeps_first_cell_witness :
    (drawString (fun k => k % 128) panel16x9 0 0 (65 :: [66]) 255).matrixBuffer
        (2 + 3 * panel16x9.width) =
      (drawChar (fun k => k % 128) panel16x9 0 0 65 255).matrixBuffer
        (2 + 3 * panel16x9.width) ∧
    drawString (fun k => k % 128) panel16x9 0 0 (65 :: [66]) 255 =
      drawString (fun k => k % 128) (drawChar (fun k => k % 128) panel16x9 0 0 65 255)
        (0 + 6) 0 [66] 255 ∧
    (∀ (X : Int) (ch kx : Nat), kx < panel16x9.width → ((kx : Int) < X ∨ X + 4 < (kx : Int)) →
      (drawChar (fun k => k % 128) panel16x9 X 0 ch 255).matrixBuffer
          (kx + 3 * panel16x9.width) =
        panel16x9.matrixBuffer (kx + 3 * panel16x9.width)) :=
  drawString_keeps_first_cell (fun k => k % 128) panel16x9 0 0 65 [66] 255 2 3 rfl rfl
    (by decide) (by decide)

/-- C16, counterexample: three cases in which the buffer after `drawChar` is not the
buffer after `drawPixel` on the lit bits of a 5x7 glyph, every glyph byte being
0x80 (bit 7 lit) in the first and 0x01 (bit 0 lit) in the others.  On the 16x9
panel at rotation 0, `drawChar` at `(0, 0)` draws row 7 of the glyph (cell 112).  On
the 16x9 panel at rotation 1, `drawChar` at `(0, 10)` draws nothing although
`drawPixel(0, 10)` lands on the panel (cell 5).  On a panel constructed 8x8,
`drawChar` at `(8, 0)` draws nothing although `drawPixel(8, 0)` stores (cell 8). -/
theorem drawChar_differs_from_5x7_pixels :
    ((drawChar (fun _ => 0x80) panel16x9 0 0 0 255).matrixBuffer 112 = 255 ∧
      (drawCharByPixels (fun _ => 0x80) 7 panel16x9 0 0 0 255).matrixBuffer 112 = 0) ∧
    ((drawChar (fun _ => 0x01) (setRotation panel16x9 1) 0 10 0 255).matrixBuffer 5 = 0 ∧
      (drawCharByPixels (fun _ => 0x01) 7 (setRotation panel16x9 1) 0 10 0 255).matrixBuffer 5
        = 255) ∧
    ((drawChar (fun _ => 0x01) (LEDmatrix.new 8 8 rawObject) 8 0 0 255).matrixBuffer 8 = 0 ∧
      (drawCharByPixels (fun _ => 0x01) 7 (LEDmatrix.new 8 8 rawObject) 8 0 0 255).matrixBuffer 8
        = 255) := by
  decide

theorem foldl_congr_mem {α β : Type} (P : α → Prop) (f g : α → β → α) (l : List β)
    (hP : ∀ a b, b ∈ l → P a → P (g a b)) (hfg : ∀ a b, b ∈ l → P a → f a b = g a b)
    (a : α) (ha : P a) : l.foldl f a = l.foldl g a ∧ P (l.foldl g a) := by
  induction l generalizing a with
  | nil => exact ⟨rfl, ha⟩
  | cons b l ih =>
    simp only [List.foldl_cons]
    rw [hfg a b (List.mem_cons_self _ _) ha]
    exact ih (fun a' b' hb' => hP a' b' (List.mem_cons_of_mem _ hb'))
      (fun a' b' hb' => hfg a' b' (List.mem_cons_of_mem _ hb')) _
      (hP a b (List.mem_cons_self _ _) ha)

/-- On the 16x9 panel at rotation 0 or 2 the bounds test of `drawChar` changes
nothing: what it skips `drawPixel` drops. -/
theorem drawChar_guard (m : LEDmatrix) (X Y : Int) (b : Nat)
    (hw : m.width = 16) (hh : m.height = 9) (hr : m.rotation = 0 ∨ m.rotation = 2)
    (hX : -32768 ≤ X ∧ X ≤ 32767) (hY : -32768 ≤ Y ∧ Y ≤ 32767) :
    (if X ≥ 0 ∧ Y ≥ 0 ∧ X < m.width ∧ Y < m.height then
        drawPixel m (wrapInt16 X) (wrapInt16 Y) b else m) = drawPixel m X Y b := by
  have eX : wrapInt16 X = X := wrapInt16_of_range hX.1 hX.2
  have eY : wrapInt16 Y = Y := wrapInt16_of_range hY.1 hY.2
  rw [eX, eY]
  split_ifs with h
  · rfl
  · symm
    apply drawPixel_of_out
    rw [hw, hh] at h
    rcases hr with hr | hr
    · simp only [rotateXY_eq, hr]
      simp only [OfNat.zero_ne_ofNat, if_false, zero_ne_one]
      omega
    · simp only [rotateXY_eq, hr, hw, hh, wrapInt16]
      simp only [OfNat.ofNat_ne_one, if_false, if_true]
      push_cast
      omega

theorem mask_fold (H : LEDmatrix → Nat → Nat → LEDmatrix) (m : LEDmatrix) :
    ((List.range 8).foldl
      (fun (st : LEDmatrix × Nat) (j : Nat) => (H st.1 j st.2, (st.2 <<< 1) % 256)) (m, 1)).1 =
      (List.range 8).foldl (fun s (j : Nat) => H s j (2 ^ j)) m := by
  have e : List.range 8 = [0, 1, 2, 3, 4, 5, 6, 7] := by decide
  rw [e]
  simp only [List.foldl_cons, List.foldl_nil, Nat.shiftLeft_eq]
  norm_num

/-- C16, amended: on the 16x9 panel at rotation 0 or 2, for every font table,
character, intensity and position whose pixel coordinates are `int16` values,
`drawChar(x, y, c, intensity)` leaves the state, its buffer included, that the calls
`drawPixel(x + col, y + row, intensity)` for exactly the lit bits of the glyph with
`col < 5` and `row < 8` (bit `row` of column byte `col`) leave. -/
theorem drawChar_eq_pixels_of_5x8 (font : Nat → Nat) (m : LEDmatrix) (x y : Int) (c b : Nat)
    (hw : m.width = 16) (hh : m.height = 9) (hr : getRotation m = 0 ∨ getRotation m = 2)
    (hx : -32768 ≤ x ∧ x + 4 ≤ 32767) (hy : -32768 ≤ y ∧ y + 7 ≤ 32767) :
    drawChar font m x y c b = drawCharByPixels font 8 m x y c b := by
  unfold drawChar drawCharByPixels
  rw [← mask_fold (fun s j mask => (List.range 5).foldl
    (fun s (col : Nat) =>
      if (font (c * 5 + col) % 256) &&& mask ≠ 0 then drawPixel s (x + col) (y + j) b else s) s)]
  dsimp only
  congr 1
  refine (foldl_congr_mem
    (fun st : LEDmatrix × Nat =>
      st.1.width = 16 ∧ st.1.height = 9 ∧ (st.1.rotation = 0 ∨ st.1.rotation = 2))
    _ _ _ ?_ ?_ (m, 1) ⟨hw, hh, hr⟩).1
  · intro st j hj hst
    refine foldl_invariant
      (fun s : LEDmatrix => s.width = 16 ∧ s.height = 9 ∧ (s.rotation = 0 ∨ s.rotation = 2))
      _ ?_ _ st.1 hst
    intro a k ha
    dsimp only
    split_ifs
    · exact ⟨(drawPixel_size a _ _ _).1.trans ha.1, (drawPixel_size a _ _ _).2.trans ha.2.1,
        by rw [drawPixel_rotation]; exact ha.2.2⟩
    · exact ha
  · intro st j hj hst
    have hj8 : j < 8 := List.mem_range.1 hj
    congr 1
    refine (foldl_congr_mem
      (fun s : LEDmatrix => s.width = 16 ∧ s.height = 9 ∧ (s.rotation = 0 ∨ s.rotation = 2))
      _ _ _ ?_ ?_ st.1 hst).1
    · intro a k hk ha
      dsimp only
      split_ifs
      · exact ⟨(drawPixel_size a _ _ _).1.trans ha.1, (drawPixel_size a _ _ _).2.trans ha.2.1,
          by rw [drawPixel_rotation]; exact ha.2.2⟩
      · exact ha
    · intro a k hk ha
      have hk5 : k < 5 := List.mem_range.1 hk
      rw [if_pos hk5, drawChar_guard a _ _ b ha.1 ha.2.1 ha.2.2 (by omega) (by omega)]

/-- Witness of C16 (amended): the 16x9 panel turned by 180 degrees, a glyph of full
columns at `(14, 5)`, partly off the panel. -/
theorem drawChar_eq_pixels_of_5x8_witness :
    drawChar (fun _ => 0xFF) (setRotation panel16x9 2) 14 5 65 255 =
      drawCharByPixels (fun _ => 0xFF) 8 (setRotation panel16x9 2) 14 5 65 255 :=
  drawChar_eq_pixels_of_5x8 (fun _ => 0xFF) (setRotation panel16x9 2) 14 5 65 255 rfl rfl
    (Or.inr rfl) (by decide) (by decide)

theorem playerAt_wait_serial (q : Player) (t : Nat) (fr : AnimationFrame) (a : Animation)
    (c : Nat) (l : Bool) (h : PlayerAt q fr a c l)
    (hc : ¬ (((c + t : Nat) : ℚ) ≥ fr.duration * 1000)) :
    ∃ q', loop q t = some q' ∧ crosses q t = false ∧ PlayerAt q' fr a (c + t) l ∧
      q'.matrix = q.matrix ∧ ∀ x, x ∈ q.serial → x ∈ q'.serial := by
  obtain ⟨hf, ha, hcft, hl⟩ := h
  subst hcft
  refine ⟨_, loop_of_wait q t fr a hf ha hc,
    by rw [crosses_eq q t fr a hf ha]; simpa using hc, ⟨hf, ha, rfl, hl⟩, rfl, ?_⟩
  intro x hx
  exact List.mem_append_left _ hx

theorem playerAt_next_serial (q : Player) (t : Nat) (fr nx : AnimationFrame) (a : Animation)
    (c : Nat) (l : Bool) (h : PlayerAt q fr a c l)
    (hc : ((c + t : Nat) : ℚ) ≥ fr.duration * 1000)
    (hn : a.frames[a.currentFrame]? = some nx) :
    ∃ q', loop q t = some q' ∧ crosses q t = true ∧
      PlayerAt q' nx { a with currentFrame := a.currentFrame + 1 } 0 l ∧
      q'.matrix = drawBitmap (clear q.matrix) 0 0 a.width a.height nx.data ∧
      ∀ x, x ∈ q.serial → x ∈ q'.serial := by
  obtain ⟨hf, ha, hcft, hl⟩ := h
  subst hcft
  refine ⟨_, loop_of_next q t fr nx a hf ha hc hn,
    by rw [crosses_eq q t fr a hf ha]; simpa using hc, ⟨rfl, rfl, rfl, hl⟩, rfl, ?_⟩
  intro x hx
  exact List.mem_append_left _ hx

theorem playerAt_wrap_serial (q : Player) (t : Nat) (fr f0 : AnimationFrame)
    (rest : List AnimationFrame) (a : Animation) (c : Nat)
    (h : PlayerAt q fr a c true) (hc : ((c + t : Nat) : ℚ) ≥ fr.duration * 1000)
    (hn : a.frames[a.currentFrame]? = none) (h0 : a.frames = f0 :: rest) :
    ∃ q', loop q t = some q' ∧ crosses q t = true ∧
      PlayerAt q' f0 { a with currentFrame := 1 } 0 true ∧
      q'.matrix = drawBitmap (clear q.matrix) 0 0 a.width a.height f0.data ∧
      SerialLine.rewind ∈ q'.serial := by
  obtain ⟨hf, ha, hcft, hl⟩ := h
  subst hcft
  refine ⟨_, loop_of_wrap q t fr f0 rest a hf ha hc hn hl h0,
    by rw [crosses_eq q t fr a hf ha]; simpa using hc, ⟨rfl, rfl, rfl, rfl⟩, rfl, ?_⟩
  simp


/-! ## Blitting a frame wider than the chip -/

theorem blittedWide_succ (m q : LEDmatrix) (data : Nat → Nat) (w n : Nat)
    (hq : q = blittedWide m data w n) :
    blittedWide m data w (n + 1) =
      { q with matrixBuffer :=
          Function.update q.matrixBuffer n (data ((n / 16) * w + n % 16) % 256) } := by
  subst hq
  unfold blittedWide
  simp only [LEDmatrix.mk.injEq, true_and, and_true]
  funext k
  by_cases hk : k = n
  · subst hk; simp
  · rw [Function.update_noteq hk]
    have : (k < n + 1) ↔ (k < n) := by omega
    simp [this]

/-- One row of a bitmap at least 16 wide drawn at the origin, at rotation 0: the
first 16 pixels of the row are stored, the others are dropped. -/
theorem drawBitmap_wide_row (m : LEDmatrix) (data : Nat → Nat) (w i : Nat)
    (hr : m.rotation = 0) (hi : i < 9) (n : Nat) (hn : n ≤ 32767) :
    (List.range n).foldl
      (fun s (j : Nat) => drawPixel s (wrapInt16 (0 + (j : Int))) (wrapInt16 (0 + (i : Int)))
        (data (i * w + j) % 256)) (blittedWide m data w (i * 16)) =
      blittedWide m data w (i * 16 + min n 16) := by
  induction n with
  | zero => rfl
  | succ n ih =>
    rw [List.range_succ n, List.foldl_append, ih (by omega)]
    simp only [List.foldl_cons, List.foldl_nil]
    by_cases hlt : n < 16
    · rw [drawPixel_rot0 _ n i _ (by simpa [blittedWide] using hr) hlt hi]
      have e : min (data (i * w + n) % 256) 255 = data (i * w + n) % 256 := by omega
      have e2 : n + i * 16 = i * 16 + n := by omega
      have e3 : min n 16 = n := by omega
      have e4 : min (n + 1) 16 = n + 1 := by omega
      have e5 : (i * 16 + n) / 16 = i := by omega
      have e6 : (i * 16 + n) % 16 = n := by omega
      rw [e, e2, e3, e4, ← Nat.add_assoc,
        blittedWide_succ m _ data w (i * 16 + n) rfl, e5, e6]
    · have e3 : min n 16 = 16 := by omega
      have e4 : min (n + 1) 16 = 16 := by omega
      rw [e3, e4]
      apply drawPixel_of_out
      have hp : rotateXY (blittedWide m data w (i * 16 + 16)) (wrapInt16 (0 + (n : Int)))
          (wrapInt16 (0 + (i : Int))) = (wrapInt16 (0 + (n : Int)), wrapInt16 (0 + (i : Int))) := by
        have : (blittedWide m data w (i * 16 + 16)).rotation = 0 := by
          simpa [blittedWide] using hr
        simp [rotateXY_eq, this]
      rw [hp]
      simp only [wrapInt16]
      omega

theorem drawBitmap_wide_rows (m : LEDmatrix) (data : Nat → Nat) (w : Nat)
    (hr : m.rotation = 0) (hw : 16 ≤ w) (hw2 : w ≤ 32767) (r : Nat) (hrow : r ≤ 9) :
    (List.range r).foldl
      (fun s (i : Nat) => (List.range w).foldl
        (fun s (j : Nat) => drawPixel s (wrapInt16 (0 + (j : Int))) (wrapInt16 (0 + (i : Int)))
          (data (i * w + j) % 256)) s) m = blittedWide m data w (r * 16) := by
  induction r with
  | zero => simp [blittedWide]
  | succ r ih =>
    rw [List.range_succ r, List.foldl_append, ih (by omega)]
    simp only [List.foldl_cons, List.foldl_nil]
    rw [drawBitmap_wide_row m data w r hr (by omega) w hw2]
    have e : min w 16 = 16 := by omega
    rw [e]
    congr 1
    omega

/-- A bitmap `w ≥ 16` wide and 9 high drawn at the origin at rotation 0 stores
the first 16 pixels of each row and drops the rest. -/
theorem drawBitmap_wide (m : LEDmatrix) (data : Nat → Nat) (w : Nat)
    (hr : m.rotation = 0) (hw : 16 ≤ w) (hw2 : w ≤ 32767) :
    drawBitmap m 0 0 w 9 data = blittedWide m data w 144 := by
  unfold drawBitmap
  exact drawBitmap_wide_rows m data w hr hw hw2 9 (by omega)

theorem playerAt_start_at (p : Player) (a : Animation) (f : AnimationFrame) (l : Bool)
    (h : a.frames[a.currentFrame]? = some f) :
    ∃ p0, startAnimation p a l = some p0 ∧
      PlayerAt p0 f { a with currentFrame := a.currentFrame + 1 } 0 l ∧
      p0.matrix = drawBitmap p.matrix 0 0 a.width a.height f.data :=
  ⟨_, by simp [startAnimation, getNextFrame_of_some a f h, drawAnimationFrame,
    Animation.getWidth, Animation.getHeight]; rfl, ⟨rfl, rfl, rfl, rfl⟩, rfl⟩

/-- C14, counterexample: two looping animations that show another frame, or other
pixels, than the claim names.  On a panel constructed 20x9, at rotation 0, with an
animation of one 20x9 frame, after `startAnimation` and one crossing (which finds
the sequence exhausted and rewinds) the frame is current, but no cell of the
buffer holds the byte 17 of its pixel `(16, 0)`: the last four columns are
dropped.  On the 16x9 panel, with the three-frame animation already read past its
first frame, after `startAnimation` and one crossing the third frame is current
and in the buffer, not frame `1 mod 3`. -/
theorem looping_animation_other_frame_or_pixels :
    (∃ p0 q, startAnimation (idlePlayer panel20x9) rampAnimation true = some p0 ∧
      loops p0 [1000] = some q ∧ crossings p0 [1000] = 1 ∧
      rampAnimation.width = panel20x9.width ∧ rampAnimation.height = panel20x9.height ∧
      getRotation panel20x9 = 0 ∧
      rampAnimation.frames[1 % rampAnimation.frames.length]? = some rampFrame ∧
      q.animationFrame = some rampFrame ∧
      rampFrame.data 16 % 256 = 17 ∧
      ∀ i, q.matrix.matrixBuffer i ≠ 17) ∧
    (∃ p0 q,
      startAnimation (idlePlayer panel16x9) { threeFrames with currentFrame := 1 } true
        = some p0 ∧
      loops p0 [1000] = some q ∧ crossings p0 [1000] = 1 ∧
      threeFrames.frames[1 % threeFrames.frames.length]? = some (plainFrame 20 1) ∧
      q.animationFrame = some (plainFrame 30 1) ∧
      (plainFrame 20 1).data 0 % 256 = 20 ∧
      q.matrix.matrixBuffer 0 = 30) := by
  constructor
  · obtain ⟨p0, hs, a0, hm0⟩ := playerAt_start (idlePlayer panel20x9) rampFrame [] 20 9 true
    obtain ⟨q, l1, c1, a1, hm1⟩ := playerAt_wrap p0 1000 _ rampFrame [] _ _ a0
      (by norm_num [rampFrame]) rfl rfl
    refine ⟨p0, q, hs, by rw [loops_cons_of _ _ _ _ l1]; rfl,
      by rw [crossings_cons_of _ _ _ _ l1, c1]; rfl, rfl, rfl, rfl, rfl, a1.1, rfl, ?_⟩
    have hr0 : (idlePlayer panel20x9).matrix.rotation = 0 := rfl
    have e0 : p0.matrix = blittedWide panel20x9 rampFrame.data 20 144 := by
      rw [hm0]
      exact drawBitmap_wide _ _ 20 hr0 (by omega) (by omega)
    have e1 : q.matrix =
        blittedWide (clear (blittedWide panel20x9 rampFrame.data 20 144)) rampFrame.data 20
          144 := by
      rw [hm1, e0]
      exact drawBitmap_wide _ _ 20 rfl (by omega) (by omega)
    intro i
    rw [e1]
    by_cases hi : i < 144
    · have h8 : i / 16 ≤ 8 := by omega
      have h16 : i % 16 < 16 := Nat.mod_lt _ (by omega)
      have hlt : i / 16 * 20 + i % 16 + 1 < 256 := by omega
      simp only [blittedWide, hi, if_true, rampFrame, Nat.mod_eq_of_lt hlt]
      omega
    · simp only [blittedWide, hi, if_false, clear]
      split
      · omega
      · have hi0 : i ≠ 0 := by omega
        simp [panel20x9, LEDmatrix.new, setRotation, rawObject, Function.update_noteq hi0]
  · obtain ⟨p0, hs, a0, hm0⟩ := playerAt_start_at (idlePlayer panel16x9)
      { threeFrames with currentFrame := 1 } (plainFrame 20 1) true rfl
    obtain ⟨q, l1, c1, a1, hm1⟩ := playerAt_next p0 1000 (plainFrame 20 1) (plainFrame 30 1)
      _ 0 true a0 (by norm_num [plainFrame]) rfl
    refine ⟨p0, q, hs, by rw [loops_cons_of _ _ _ _ l1]; rfl,
      by rw [crossings_cons_of _ _ _ _ l1, c1]; rfl, rfl, a1.1, rfl, ?_⟩
    have hr : (clear p0.matrix).rotation = 0 := by
      show p0.matrix.rotation = 0
      rw [hm0, drawBitmap_rotation]; rfl
    have e : q.matrix = drawBitmap (clear p0.matrix) 0 0 16 9 (plainFrame 30 1).data := hm1
    rw [e, drawBitmap_full _ _ hr, blitted_buffer _ _ _ _ (by omega)]
    rfl

/-- Witness of C14 (amended): the three-frame animation on the constructed 16x9 panel,
polled four times with 1000 ms.  Every call is a crossing, the third finds the
sequence exhausted and rewinds, and after the fourth frame `4 mod 3 = 1` is
current and fills the buffer with its byte 20. -/
theorem looping_animation_shows_frame_k_mod_n_witness :
    ∃ p0 q, startAnimation (idlePlayer panel16x9) threeFrames true = some p0 ∧
      loops p0 [1000, 1000, 1000, 1000] = some q ∧
      crossings p0 [1000, 1000, 1000, 1000] = 4 ∧
      q.animationFrame = some (plainFrame 20 1) ∧
      q.animation = some { threeFrames with currentFrame := 2 } ∧
      SerialLine.rewind ∈ q.serial ∧
      ∀ i, i < 144 → q.matrix.matrixBuffer i = 20 := by
  obtain ⟨p0, q, f, hs, hq, hk, hf, hbuf⟩ :=
    (looping_animation_shows_frame_k_mod_n (idlePlayer panel16x9) threeFrames
      [1000, 1000, 1000, 1000] (by simp [threeFrames]) rfl rfl rfl rfl rfl rfl).2
  obtain ⟨p0', hs', a0, -⟩ := playerAt_start (idlePlayer panel16x9) (plainFrame 10 1)
    [plainFrame 20 1, plainFrame 30 1] 16 9 true
  have e0 : p0' = p0 := Option.some.inj (hs'.symm.trans hs)
  subst e0
  obtain ⟨q1, l1, c1, a1, -, -⟩ := playerAt_next_serial p0' 1000 _ (plainFrame 20 1) _ _ _ a0
    (by norm_num [plainFrame]) rfl
  obtain ⟨q2, l2, c2, a2, -, -⟩ := playerAt_next_serial q1 1000 _ (plainFrame 30 1) _ _ _ a1
    (by norm_num [plainFrame]) rfl
  obtain ⟨q3, l3, c3, a3, -, s3⟩ := playerAt_wrap_serial q2 1000 _ (plainFrame 10 1)
    [plainFrame 20 1, plainFrame 30 1] _ _ a2 (by norm_num [plainFrame]) rfl rfl
  obtain ⟨q4, l4, c4, a4, -, s4⟩ := playerAt_next_serial q3 1000 _ (plainFrame 20 1) _ _ _ a3
    (by norm_num [plainFrame]) rfl
  have hq4 : loops p0' [1000, 1000, 1000, 1000] = some q4 := by
    rw [loops_cons_of _ _ _ _ l1, loops_cons_of _ _ _ _ l2, loops_cons_of _ _ _ _ l3,
      loops_cons_of _ _ _ _ l4]; rfl
  have hc4 : crossings p0' [1000, 1000, 1000, 1000] = 4 := by
    rw [crossings_cons_of _ _ _ _ l1, crossings_cons_of _ _ _ _ l2,
      crossings_cons_of _ _ _ _ l3, crossings_cons_of _ _ _ _ l4, c1, c2, c3, c4]; rfl
  have e4 : q4 = q := Option.some.inj (hq4.symm.trans hq)
  subst e4
  rw [hc4] at hk
  have ef : f = plainFrame 20 1 := (Option.some.inj hk).symm
  subst ef
  exact ⟨p0', q4, hs, hq, hc4, a4.1, a4.2.1, s4 _ s3, fun i hi => hbuf i hi⟩

end Spencer
